import Mathlib

/-!
A shallow embedding of the incremental CDCL SAT solver
(`src/CDCLSolverIncremental.cpp`, `src/ClauseDatabase.cpp`) and proofs about it.

Modelling conventions:
* C++ `int` literals are `Int`; `size_t` counters are `Nat`.
* `std::unordered_map` is an association list in insertion order
  (`assocFind` / `assocInsert` / `assocErase`); iteration is list order.
* `double` activities are exact unnormalized fractions (`Dbl`).  The
  solver's claims never depend on floating-point rounding; the
  rescale/decay idiom is preserved.
* Wall-clock timeout checks and RNG draws are oracle streams (`Oracle`);
  each check/draw consumes one position of the stream, so every concrete
  execution of the C++ program corresponds to some oracle.
* Unbounded loops take explicit fuel and return `Option`; `none` models
  non-termination / fuel exhaustion and is excluded by hypotheses.
-/

namespace CDCL

/-- Association list lookup, mirroring `std::unordered_map::find`. -/
def assocFind {β : Type} (m : List (Int × β)) (k : Int) : Option β :=
  match m with
  | [] => none
  | (k', v) :: rest => if k' = k then some v else assocFind rest k

/-- Association list insert-or-assign, mirroring `map[k] = v`.
New keys are appended, so list order is insertion order. -/
def assocInsert {β : Type} (m : List (Int × β)) (k : Int) (v : β) : List (Int × β) :=
  match m with
  | [] => [(k, v)]
  | (k', v') :: rest =>
    if k' = k then (k, v) :: rest else (k', v') :: assocInsert rest k v

/-- Association list erase, mirroring `map.erase(k)`. -/
def assocErase {β : Type} (m : List (Int × β)) (k : Int) : List (Int × β) :=
  match m with
  | [] => []
  | (k', v') :: rest =>
    if k' = k then rest else (k', v') :: assocErase rest k

/-- `std::abs(lit)` as an `Int`-valued variable identifier. -/
def litVar (l : Int) : Int := (l.natAbs : Int)

/-- Exact unnormalized fraction standing in for C++ `double`.  All
denominators stay positive.  Every claim-relevant comparison in the
source happens on values that are exact in binary floating point and in
these fractions alike, so the two agree wherever it matters. -/
structure Dbl where
  num : Int
  den : Int
  deriving Repr, DecidableEq

/-- Embed an integer. -/
def Dbl.ofInt (n : Int) : Dbl := ⟨n, 1⟩

/-- Build a fraction with a positive denominator. -/
def Dbl.frac (n d : Int) : Dbl := if d < 0 then ⟨-n, -d⟩ else ⟨n, d⟩

/-- Addition. -/
def Dbl.add (a b : Dbl) : Dbl := ⟨a.num * b.den + b.num * a.den, a.den * b.den⟩

/-- Multiplication. -/
def Dbl.mul (a b : Dbl) : Dbl := ⟨a.num * b.num, a.den * b.den⟩

/-- Division. -/
def Dbl.div (a b : Dbl) : Dbl := Dbl.frac (a.num * b.den) (a.den * b.num)

/-- Absolute value (`std::abs` on doubles). -/
def Dbl.fabs (a : Dbl) : Dbl := ⟨(a.num.natAbs : Int), a.den⟩

/-- Strict comparison `a < b` (cross-multiplied; denominators positive). -/
def Dbl.blt (a b : Dbl) : Bool := decide (a.num * b.den < b.num * a.den)

/-- Comparison `a ≤ b`. -/
def Dbl.ble (a b : Dbl) : Bool := decide (a.num * b.den ≤ b.num * a.den)

/-- `static_cast<int>` truncation toward zero. -/
def Dbl.trunc (a : Dbl) : Int := a.num.tdiv a.den

/-- The check `(lit > 0 && value) || (lit < 0 && !value)` used throughout the
source to test whether an assigned literal is satisfied. -/
def litSatisfiedBy (l : Int) (v : Bool) : Bool :=
  (decide (0 < l) && v) || (decide (l < 0) && !v)

/-- A literal is satisfied under the current assignment map
(unassigned literals are not satisfied). -/
def satLit (m : List (Int × Bool)) (l : Int) : Bool :=
  match assocFind m (litVar l) with
  | none => false
  | some v => litSatisfiedBy l v

/-- A clause (disjunction) is satisfied when some literal is. -/
def satClause (m : List (Int × Bool)) (c : List Int) : Bool :=
  c.any (satLit m)

/-! ## Clause database (`ClauseDatabase.cpp`) -/

/-- `ClauseInfo`: a stored clause with metadata.  `activity` is a `size_t`
in the source, hence `Nat` here. -/
structure ClauseInfo where
  literals : List Int
  is_learned : Bool
  is_core : Bool
  activity : Nat
  lbd : Int
  watched_lits : Int × Int
  deriving Repr, DecidableEq

/-- The `ClauseInfo` constructor: watches the first two literals when
possible, `(lit, 0)` for a unit clause, `(0, 0)` for an empty clause. -/
def mkClauseInfo (lits : List Int) (learned : Bool) (core : Bool) : ClauseInfo :=
  { literals := lits
    is_learned := learned
    is_core := core
    activity := 0
    lbd := 0
    watched_lits :=
      match lits with
      | l1 :: l2 :: _ => (l1, l2)
      | [l1] => (l1, 0)
      | [] => (0, 0) }

/-- Watch bucket index: positive literal `v` uses bucket `v`,
negative literal `-v` uses bucket `num_variables + v`. -/
def bucketIdx (nv : Nat) (l : Int) : Nat :=
  if 0 < l then l.toNat else nv + l.natAbs

/-- The clause database state (`ClauseDatabase`). -/
structure ClauseDatabase where
  clauses : List (Option ClauseInfo)
  watches : List (List Nat)
  clause_activity_inc : Nat
  num_variables : Nat
  original_clauses : Nat
  total_learned : Nat
  active_learned : Nat
  deleted_learned : Nat
  max_learnt_clauses : Nat
  clause_deletion_threshold : Dbl
  allow_clause_deletion : Bool
  current_memory_usage : Nat
  deriving Repr, DecidableEq

/-- `ClauseDatabase` constructor for `num_vars` variables. -/
def mkClauseDatabase (num_vars : Nat) : ClauseDatabase :=
  { clauses := []
    watches := List.replicate (2 * num_vars + 1) []
    clause_activity_inc := 1
    num_variables := num_vars
    original_clauses := 0
    total_learned := 0
    active_learned := 0
    deleted_learned := 0
    max_learnt_clauses := num_vars * 4
    clause_deletion_threshold := Dbl.frac 5 2
    allow_clause_deletion := true
    current_memory_usage := 0 }

/-- Append clause id `id` to watch bucket `b`. -/
def pushWatch (w : List (List Nat)) (b : Nat) (id : Nat) : List (List Nat) :=
  w.set b ((w.getD b []) ++ [id])

/-- Remove clause id `id` from watch bucket `b`
(`erase(remove(...))`, removing every occurrence). -/
def dropWatch (w : List (List Nat)) (b : Nat) (id : Nat) : List (List Nat) :=
  w.set b ((w.getD b []).filter (fun x => x ≠ id))

/-- `ClauseDatabase::getWatches`. -/
def ClauseDatabase.getWatches (db : ClauseDatabase) (l : Int) : List Nat :=
  db.watches.getD (bucketIdx db.num_variables l) []

/-- `ClauseDatabase::addClause`: intern the clause (learned flag optional,
core = ¬learned), register watches on the first two literals. -/
def ClauseDatabase.addClause (db : ClauseDatabase) (clause : List Int)
    (is_learned : Bool := false) : Nat × ClauseDatabase :=
  let cinfo := mkClauseInfo clause is_learned (!is_learned)
  let id := db.clauses.length
  let db := { db with clauses := db.clauses ++ [some cinfo] }
  let db :=
    if is_learned then
      { db with total_learned := db.total_learned + 1,
                active_learned := db.active_learned + 1 }
    else
      { db with original_clauses := db.original_clauses + 1 }
  let db :=
    match clause with
    | l1 :: l2 :: _ =>
      let w := pushWatch db.watches (bucketIdx db.num_variables l1) id
      let w := pushWatch w (bucketIdx db.num_variables l2) id
      { db with watches := w }
    | [l1] =>
      { db with watches := pushWatch db.watches (bucketIdx db.num_variables l1) id }
    | [] => db
  (id, db)

/-- Replace the stored clause at `id` (used for watched-literal mutation). -/
def ClauseDatabase.setClause (db : ClauseDatabase) (id : Nat)
    (c : ClauseInfo) : ClauseDatabase :=
  { db with clauses := db.clauses.set id (some c) }

/-- `ClauseDatabase::removeClause`: detach watches, adjust counters,
mark the slot vacant (ids are never renumbered). -/
def ClauseDatabase.removeClause (db : ClauseDatabase) (id : Nat) : ClauseDatabase :=
  match db.clauses.getD id none with
  | none => db
  | some c =>
    let db :=
      if c.literals.length ≥ 2 then
        let w := dropWatch db.watches (bucketIdx db.num_variables c.watched_lits.1) id
        let w := dropWatch w (bucketIdx db.num_variables c.watched_lits.2) id
        { db with watches := w }
      else if c.literals.length = 1 then
        { db with watches :=
            dropWatch db.watches (bucketIdx db.num_variables (c.literals.getD 0 0)) id }
      else db
    let db :=
      if c.is_learned then
        { db with active_learned := db.active_learned - 1,
                  deleted_learned := db.deleted_learned + 1 }
      else db
    { db with clauses := db.clauses.set id none }

/-- One step of `initWatches`: (re)register the watches of clause `id`. -/
def initWatchOne (nv : Nat) (acc : List (List Nat) × List (Option ClauseInfo))
    (id : Nat) : List (List Nat) × List (Option ClauseInfo) :=
  let (w, cs) := acc
  match cs.getD id none with
  | none => (w, cs)
  | some c =>
    match c.literals with
    | l1 :: l2 :: _ =>
      let w := pushWatch w (bucketIdx nv l1) id
      let w := pushWatch w (bucketIdx nv l2) id
      (w, cs.set id (some { c with watched_lits := (l1, l2) }))
    | [l1] =>
      (pushWatch w (bucketIdx nv l1) id, cs.set id (some { c with watched_lits := (l1, 0) }))
    | [] => (w, cs)

/-- `ClauseDatabase::initWatches`: clear all buckets and re-register every
live clause on its first two literals. -/
def ClauseDatabase.initWatches (db : ClauseDatabase) : ClauseDatabase :=
  let cleared := db.watches.map (fun _ => ([] : List Nat))
  let (w, cs) := (List.range db.clauses.length).foldl
    (initWatchOne db.num_variables) (cleared, db.clauses)
  { db with watches := w, clauses := cs }

/-- `ClauseDatabase::updateWatches`: migrate one watch of clause `id`
from `old_lit`'s bucket to `new_lit`'s bucket and update the stored pair. -/
def ClauseDatabase.updateWatches (db : ClauseDatabase) (id : Nat)
    (old_lit new_lit : Int) : ClauseDatabase :=
  match db.clauses.getD id none with
  | none => db
  | some c =>
    let w := dropWatch db.watches (bucketIdx db.num_variables old_lit) id
    let w := pushWatch w (bucketIdx db.num_variables new_lit) id
    let c' :=
      if c.watched_lits.1 = old_lit then { c with watched_lits := (new_lit, c.watched_lits.2) }
      else if c.watched_lits.2 = old_lit then { c with watched_lits := (c.watched_lits.1, new_lit) }
      else c
    { db with watches := w, clauses := db.clauses.set id (some c') }

/-- `ClauseDatabase::getNumClauses` = original + active learned. -/
def ClauseDatabase.getNumClauses (db : ClauseDatabase) : Nat :=
  db.original_clauses + db.active_learned

/-- `ClauseDatabase::getNumVariables`. -/
def ClauseDatabase.getNumVariables (db : ClauseDatabase) : Nat :=
  db.num_variables

/-- `ClauseDatabase::addVariable`: increment the variable count and widen
the watch array; returns the incremented count. -/
def ClauseDatabase.addVariable (db : ClauseDatabase) : Nat × ClauseDatabase :=
  let nv := db.num_variables + 1
  let w :=
    if db.watches.length ≤ 2 * nv then
      db.watches ++ List.replicate (2 * nv + 1 - db.watches.length) []
    else db.watches
  (nv, { db with num_variables := nv, watches := w })

/-- `ClauseDatabase::getNumLearnedClauses`. -/
def ClauseDatabase.getNumLearnedClauses (db : ClauseDatabase) : Nat :=
  db.active_learned

/-- Representative `sizeof` constants for the memory-usage surrogate
(`calculateMemoryUsage` sums implementation-defined object sizes; the
exact constants never matter: the 1 GB ceiling is unreachable in any
context a claim touches). -/
def sizeofClauseInfo : Nat := 80

/-- `ClauseDatabase::calculateMemoryUsage` (structural surrogate). -/
def ClauseDatabase.calculateMemoryUsage (db : ClauseDatabase) : Nat :=
  let clause_mem := db.clauses.foldl
    (fun acc c => match c with
      | none => acc
      | some ci => acc + sizeofClauseInfo + ci.literals.length * 4 + 16) 0
  let watch_mem := db.watches.foldl (fun acc wl => acc + wl.length * 8 + 24) 0
  clause_mem + watch_mem

/-- `ClauseDatabase::garbageCollect`: remove learned, non-core clauses
that are satisfied under the given assignment. -/
def ClauseDatabase.garbageCollect (db : ClauseDatabase)
    (assignments : List (Int × Bool)) : ClauseDatabase :=
  (List.range db.clauses.length).foldl
    (fun db id =>
      match db.clauses.getD id none with
      | none => db
      | some c =>
        if satClause assignments c.literals && c.is_learned && !c.is_core then
          db.removeClause id
        else db)
    db

/-- Insertion sort by a rational score, ascending (stable; the source's
`std::sort` order among equal scores is unspecified). -/
def insertByScore (x : Nat × Dbl) : List (Nat × Dbl) → List (Nat × Dbl)
  | [] => [x]
  | y :: rest => if x.2.blt y.2 then x :: y :: rest else y :: insertByScore x rest

/-- Sort clause scores ascending. -/
def sortByScore (l : List (Nat × Dbl)) : List (Nat × Dbl) :=
  l.foldl (fun acc x => insertByScore x acc) []

/-- `ClauseDatabase::reduceLearnedClauses`: garbage-collect satisfied
learned clauses, then delete low-score learned clauses (score =
`activity / max(lbd, 1)`) down to about 3/4 of the cap, preserving
clauses with `lbd ≤ clause_deletion_threshold`. -/
def ClauseDatabase.reduceLearnedClauses (db : ClauseDatabase)
    (assignments : List (Int × Bool)) : Nat × ClauseDatabase :=
  if !db.allow_clause_deletion || db.active_learned ≤ db.max_learnt_clauses then
    (0, db)
  else
    let db := db.garbageCollect assignments
    if db.active_learned > db.max_learnt_clauses then
      let clause_scores := (List.range db.clauses.length).foldl
        (fun acc id =>
          match db.clauses.getD id none with
          | none => acc
          | some c =>
            if !c.is_learned || c.is_core then acc
            else acc ++ [(id, (Dbl.ofInt (c.activity : Int)).div
              (if 0 < c.lbd then Dbl.ofInt c.lbd else Dbl.ofInt 1))])
        []
      let sorted := sortByScore clause_scores
      let target := db.max_learnt_clauses * 3 / 4
      let to_remove := db.active_learned - target
      let (removed, db) := sorted.foldl
        (fun (acc : Nat × ClauseDatabase) idsc =>
          let (removed, db) := acc
          if removed ≥ to_remove then acc
          else
            match db.clauses.getD idsc.1 none with
            | none => acc
            | some c =>
              if (Dbl.ofInt c.lbd).ble db.clause_deletion_threshold then acc
              else (removed + 1, db.removeClause idsc.1))
        (0, db)
      (removed, db)
    else (0, db)

/-- `ClauseDatabase::updateMemoryUsage`: recompute usage, and force a
reduction when above the 1 GB ceiling. -/
def ClauseDatabase.updateMemoryUsage (db : ClauseDatabase) : ClauseDatabase :=
  let db := { db with current_memory_usage := db.calculateMemoryUsage }
  if db.current_memory_usage > 1024 * 1024 * 1024 then
    (db.reduceLearnedClauses []).2
  else db

/-- `ClauseDatabase::addLearnedClause`: intern with
`learned = true, core = false`, store the LBD, register watches, update
memory usage, and trigger a reduction when over the cap. -/
def ClauseDatabase.addLearnedClause (db : ClauseDatabase) (clause : List Int)
    (lbd : Int) : Nat × ClauseDatabase :=
  let cinfo := { mkClauseInfo clause true false with lbd := lbd }
  let id := db.clauses.length
  let db := { db with clauses := db.clauses ++ [some cinfo],
                      total_learned := db.total_learned + 1,
                      active_learned := db.active_learned + 1 }
  let db :=
    match clause with
    | l1 :: l2 :: _ =>
      let w := pushWatch db.watches (bucketIdx db.num_variables l1) id
      let w := pushWatch w (bucketIdx db.num_variables l2) id
      { db with watches := w }
    | [l1] =>
      { db with watches := pushWatch db.watches (bucketIdx db.num_variables l1) id }
    | [] => db
  let db := db.updateMemoryUsage
  let db :=
    if db.allow_clause_deletion && db.active_learned > db.max_learnt_clauses then
      (db.reduceLearnedClauses []).2
    else db
  (id, db)

/-- `ClauseDatabase::bumpClauseActivity` with rescale at `1e20`. -/
def ClauseDatabase.bumpClauseActivity (db : ClauseDatabase) (id : Nat) : ClauseDatabase :=
  match db.clauses.getD id none with
  | none => db
  | some c =>
    if !c.is_learned then db
    else
      let c := { c with activity := c.activity + db.clause_activity_inc }
      let db := db.setClause id c
      if c.activity > Nat.pow 10 20 then
        { db with
          clauses := db.clauses.map (fun oc => oc.map (fun ci =>
            if ci.is_learned then { ci with activity := ci.activity / Nat.pow 10 20 } else ci)),
          clause_activity_inc := db.clause_activity_inc / Nat.pow 10 20 }
      else db

/-- `ClauseDatabase::decayClauseActivities`:
`clause_activity_inc /= 0.999` on a `size_t`, i.e. the truncated quotient. -/
def ClauseDatabase.decayClauseActivities (db : ClauseDatabase) : ClauseDatabase :=
  { db with clause_activity_inc := db.clause_activity_inc * 1000 / 999 }

/-- `ClauseDatabase::computeLBD`: the number of distinct nonzero decision
levels among the clause's variables. -/
def ClauseDatabase.computeLBD (_db : ClauseDatabase) (clause : List Int)
    (levels : List Int) : Int :=
  let distinct := clause.foldl
    (fun (acc : List Int) l =>
      let var := (l.natAbs : Nat)
      if var < levels.length ∧ levels.getD var 0 > 0 then
        let lv := levels.getD var 0
        if lv ∈ acc then acc else acc ++ [lv]
      else acc)
    []
  (distinct.length : Int)

/-- `ClauseDatabase::clearLearnedClauses`: truncate the clause vector to
the number of core clauses, reset watches and counters.  (The source's
`clauses.resize(num_original)` keeps the first `num_original` slots
whatever they hold.) -/
def ClauseDatabase.clearLearnedClauses (db : ClauseDatabase) : ClauseDatabase :=
  let num_original := db.clauses.foldl
    (fun acc c => match c with
      | some ci => if ci.is_core then acc + 1 else acc
      | none => acc) 0
  { db with
    clauses := db.clauses.take num_original
    watches := List.replicate (2 * db.num_variables + 1) []
    total_learned := 0
    active_learned := 0
    deleted_learned := 0
    original_clauses := num_original
    clause_activity_inc := 1 }

/-! ## Luby restart sequence (`CDCLSolverIncremental::lubySequence`) -/

/-- The inner `while (temp % 2 == 0)` loop: compute the odd part and the
2-adic valuation of `i`.  Returns `none` when the loop would not
terminate (only for `i = 0`). -/
def oddPow : Nat → Int → Option (Int × Nat)
  | 0, _ => none
  | f + 1, i => if i % 2 = 0 then (oddPow f (i / 2)).map (fun p => (p.1, p.2 + 1)) else some (i, 0)

/-- `CDCLSolverIncremental::lubySequence`, fuelled: returns `2^power`
when the odd part of `i` is 1 (i.e. `i` is a power of two), otherwise
recurses on `i - 2^power + 1` where `2^power` is the largest power of two
dividing `i`.  `none` models non-termination. -/
def lubySequence : Nat → Int → Option Int
  | 0, _ => none
  | f + 1, i =>
    match oddPow 128 i with
    | none => none
    | some (temp, power) =>
      if temp = 1 then some (Int.pow 2 power)
      else lubySequence f (i - Int.pow 2 power + 1)

/-- Largest `k` with `2^k ≤ i` (for `i ≥ 1`), as used by the spec's Luby
recurrence. -/
def largestPow2LE (i : Int) : Nat :=
  (List.range 128).foldl (fun acc k => if Int.pow 2 (k + 1) ≤ i then k + 1 else acc) 0

/-- Modelled from the spec: the Luby recurrence of §4.6 —
`luby(i) = 2^k` if `i = 2^(k+1) - 1`, else `luby(i - 2^k + 1)` where
`2^k` is the largest power of two with `2^k ≤ i`. -/
def lubySpec : Nat → Int → Option Int
  | 0, _ => none
  | f + 1, i =>
    if i < 1 then none
    else
      let k := largestPow2LE i
      if i = Int.pow 2 (k + 1) - 1 then some (Int.pow 2 k)
      else lubySpec f (i - Int.pow 2 k + 1)

/-! ## Solver state (`CDCLSolverIncremental`) -/

/-- A trail entry (`ImplicationNodeIncremental`). -/
structure TrailNode where
  literal : Int
  decision_level : Int
  antecedent_id : Nat
  is_decision : Bool
  deriving Repr, DecidableEq

instance : Inhabited TrailNode := ⟨⟨0, 0, 0, false⟩⟩

/-- The sentinel `std::numeric_limits<size_t>::max()` used for "no
antecedent" (decisions and assumptions). -/
def noAnte : Nat := Nat.pow 2 64 - 1

/-- Oracle for the sources of behaviour outside the algorithm itself:
wall-clock timeout polls (`touts`), `dis(gen) < p` comparisons against
the Mersenne-twister stream (`rands`), and `uniform_int_distribution`
draws (`rnats`).  Every real execution corresponds to some oracle. -/
structure Oracle where
  touts : Nat → Bool
  rands : Nat → Bool
  rnats : Nat → Nat

/-- The oracle of a run where no timeout fires and every probability
comparison comes out false. -/
def quietOracle : Oracle := ⟨fun _ => false, fun _ => false, fun _ => 0⟩

/-- Ghost tag describing how `solve` returned (not part of the C++ state;
observer only). -/
inductive ExitReason
  | unset
  | contradictoryAssumptions
  | duplicateAssumption
  | initialConflict
  | level0Conflict
  | timeoutExit
  | stuckExit
  | maxIterations
  | satisfiable
  deriving Repr, DecidableEq

/-- Ghost record of one clause-learning event: the conflict's decision
level, the learned clause before and after minimization, and a snapshot
of the per-variable decision levels at learning time. -/
structure LearnEvent where
  conflict_level : Int
  preMin : List Int
  postMin : List Int
  levelsSnap : List Int
  deriving Repr, DecidableEq

/-- The incremental solver state (`CDCLSolverIncremental` fields, plus
oracle counters and ghost observers). -/
structure SolverState where
  db : ClauseDatabase
  assignments : List (Int × Bool)
  trail : List TrailNode
  var_to_trail : List (Int × Nat)
  decision_level : Int
  decision_levels : List Int
  activity : List (Int × Dbl)
  var_inc : Dbl
  var_decay : Dbl
  conflicts_since_restart : Int
  restart_threshold : Int
  restart_multiplier : Dbl
  luby_index : Int
  use_luby_restarts : Bool
  assumptions : List Int
  core : List Int
  last_solved_until : Int
  conflicts : Int
  decisions : Int
  propagations : Int
  restarts : Int
  max_decision_level : Int
  use_lbd : Bool
  use_phase_saving : Bool
  conflict_clause_id : Nat
  stuck_counter : Int
  tCnt : Nat
  rCnt : Nat
  nCnt : Nat
  exitReason : ExitReason
  lastLearned : List Int
  learnLog : List LearnEvent

/-- `CDCLSolverIncremental::checkTimeout` (each poll consumes one oracle
position; the portfolio pointer is null in every claim's scope, so only
the clock matters). -/
def checkTimeout (o : Oracle) (st : SolverState) : Bool × SolverState :=
  (o.touts st.tCnt, { st with tCnt := st.tCnt + 1 })

/-- One `dis(gen) < p` comparison. -/
def drawBool (o : Oracle) (st : SolverState) : Bool × SolverState :=
  (o.rands st.rCnt, { st with rCnt := st.rCnt + 1 })

/-- One `uniform_int_distribution(0, n-1)` draw. -/
def drawNat (o : Oracle) (st : SolverState) (n : Nat) : Nat × SolverState :=
  (o.rnats st.nCnt % n, { st with nCnt := st.nCnt + 1 })

/-- `CDCLSolverIncremental::initializeVSIDS`: add the literal occurrence
count of each variable in the database onto its activity (the source adds
onto whatever is already stored via `operator[]`). -/
def initVSIDS (st : SolverState) : SolverState :=
  let act := st.db.clauses.foldl
    (fun acc oc =>
      match oc with
      | none => acc
      | some c =>
        c.literals.foldl
          (fun (a : List (Int × Dbl)) l =>
            let var := litVar l
            assocInsert a var (((assocFind a var).getD (Dbl.ofInt 0)).add (Dbl.ofInt 1)))
          acc)
    st.activity
  { st with activity := act }

/-- `CDCLSolverIncremental::bumpVarActivity` with rescale at `1e100`. -/
def bumpVarActivity (st : SolverState) (var : Int) : SolverState :=
  let newAct := ((assocFind st.activity var).getD (Dbl.ofInt 0)).add st.var_inc
  let st := { st with activity := assocInsert st.activity var newAct }
  if (Dbl.ofInt (Int.pow 10 100)).blt newAct.fabs then
    { st with activity := st.activity.map (fun p => (p.1, p.2.mul (Dbl.frac 1 (Int.pow 10 100)))),
              var_inc := st.var_inc.mul (Dbl.frac 1 (Int.pow 10 100)) }
  else st

/-- `CDCLSolverIncremental::decayVarActivities`. -/
def decayVarActivities (st : SolverState) : SolverState :=
  { st with var_inc := st.var_inc.div st.var_decay }

/-- `CDCLSolverIncremental::backtrack`'s pop loop, fuelled by the trail
length: pop tail entries whose level exceeds the target, clearing their
assignment, trail map and stored level. -/
def backtrackGo : Nat → SolverState → Int → SolverState
  | 0, st, _ => st
  | f + 1, st, level =>
    match st.trail.getLast? with
    | none => st
    | some node =>
      if node.decision_level ≤ level then st
      else
        let var := litVar node.literal
        backtrackGo f
          { st with trail := st.trail.dropLast,
                    assignments := assocErase st.assignments var,
                    var_to_trail := assocErase st.var_to_trail var,
                    decision_levels := st.decision_levels.set var.natAbs 0 }
          level

/-- `CDCLSolverIncremental::backtrack`. -/
def backtrack (st : SolverState) (level : Int) : SolverState :=
  let st := backtrackGo st.trail.length st level
  { st with decision_level := level }

/-- `CDCLSolverIncremental::restart`: backjump to level 0, advance the
Luby index or the geometric threshold, reset the conflict counter.
(`restart_threshold * restart_multiplier` is an `int`-truncated product.) -/
def doRestart (st : SolverState) : SolverState :=
  let st := backtrack st 0
  let st :=
    if st.use_luby_restarts then { st with luby_index := st.luby_index + 1 }
    else { st with restart_threshold :=
      ((Dbl.ofInt st.restart_threshold).mul st.restart_multiplier).trunc }
  { st with conflicts_since_restart := 0, restarts := st.restarts + 1 }

/-- `CDCLSolverIncremental::shouldRestart`; `none` when the Luby
computation diverges. -/
def shouldRestart (st : SolverState) : Option Bool :=
  if st.use_luby_restarts then
    (lubySequence 128 st.luby_index).map
      (fun lv => st.conflicts_since_restart ≥ st.restart_threshold * lv)
  else
    some (st.conflicts_since_restart ≥ st.restart_threshold)

/-! ## Unit propagation (`CDCLSolverIncremental::unitPropagate`) -/

/-- Append a propagated literal to the trail and record its assignment
(`trail.emplace_back(lit, level, antecedent)` plus the three map updates
and `propagations++`). -/
def enqueueProp (st : SolverState) (l : Int) (ante : Nat) : SolverState :=
  let var := litVar l
  { st with trail := st.trail ++ [⟨l, st.decision_level, ante, false⟩],
            var_to_trail := assocInsert st.var_to_trail var st.trail.length,
            assignments := assocInsert st.assignments var (decide (0 < l)),
            decision_levels := st.decision_levels.set var.natAbs st.decision_level,
            propagations := st.propagations + 1 }

/-- Result of handling one clause on a watch list. -/
inductive StepRes
  | next (st : SolverState)
  | confl (st : SolverState)

/-- The inner scan for a replacement watch: the first literal that is not
one of the two watched literals and is unassigned or true. -/
def findNewWatch (m : List (Int × Bool)) (lits : List Int)
    (w1 w2 : Int) : Option Int :=
  lits.find? (fun l =>
    !(decide (l = w1)) && !(decide (l = w2)) &&
      (match assocFind m (litVar l) with
       | none => true
       | some v => litSatisfiedBy l v))

/-- The body of the watch-list loop in `unitPropagate` for one clause id:
normalize the falsified watch into slot 0, skip satisfied clauses,
migrate the watch when a replacement exists, otherwise propagate the
other watched literal or report the conflict.  (The source's "direct
contradiction" re-check of `assignments.find(var)` is unreachable: it
re-reads the same lookup that just returned `end()`.) -/
def processClause (st : SolverState) (neg_lit : Int) (cid : Nat) : StepRes :=
  match st.db.clauses.getD cid none with
  | none => .next st
  | some c0 =>
    let c :=
      if c0.watched_lits.2 = neg_lit then
        { c0 with watched_lits := (c0.watched_lits.2, c0.watched_lits.1) }
      else c0
    let st := { st with db := st.db.setClause cid c }
    let other_lit := c.watched_lits.2
    let other_find := assocFind st.assignments (litVar other_lit)
    if (match other_find with
        | none => false
        | some v => litSatisfiedBy other_lit v) then
      .next st
    else
      match findNewWatch st.assignments c.literals c.watched_lits.1 c.watched_lits.2 with
      | some l =>
        let st := { st with db := st.db.updateWatches cid neg_lit l }
        let st :=
          match st.db.clauses.getD cid none with
          | some c' =>
            { st with db := st.db.setClause cid { c' with watched_lits := (l, c'.watched_lits.2) } }
          | none => st
        .next st
      | none =>
        match other_find with
        | none => .next (enqueueProp st other_lit cid)
        | some _ => .confl { st with conflict_clause_id := cid }

/-- Iterate a copy of the watch list (`watch_list_copy`), stopping at the
first conflict. -/
def processWatchList (st : SolverState) (neg_lit : Int) :
    List Nat → StepRes
  | [] => .next st
  | cid :: rest =>
    match processClause st neg_lit cid with
    | .next st' => processWatchList st' neg_lit rest
    | .confl st' => .confl st'

/-- Result of walking the trail. -/
inductive WalkRes
  | reachedEnd (st : SolverState)
  | confl (st : SolverState)
  | timedOut (st : SolverState)
  | fuelOut

/-- The outer `while (trail_index < trail.size())` loop of
`unitPropagate`, with the periodic timeout poll every 1000 steps. -/
def walkTrail (o : Oracle) : Nat → SolverState → Nat → WalkRes
  | 0, _, _ => .fuelOut
  | f + 1, st, idx =>
    if idx ≥ st.trail.length then .reachedEnd st
    else
      let p := if idx % 1000 = 0 then checkTimeout o st else (false, st)
      let st := p.2
      if p.1 then .timedOut st
      else
        let lit := (st.trail.getD idx default).literal
        let neg_lit := -lit
        match processWatchList st neg_lit (st.db.getWatches neg_lit) with
        | .confl st' => .confl st'
        | .next st' => walkTrail o f st' (idx + 1)

/-- The per-clause counting loop of the fallback scan: satisfied count
(with early break), unassigned count, and the last unassigned literal. -/
def scanCountGo (m : List (Int × Bool)) :
    List Int → Nat → Nat → Int → Nat × Nat × Int
  | [], s, u, last => (s, u, last)
  | l :: rest, s, u, last =>
    match assocFind m (litVar l) with
    | none => scanCountGo m rest s (u + 1) l
    | some v =>
      if litSatisfiedBy l v then (s + 1, u, last)
      else scanCountGo m rest s u last

/-- Result of the fallback full-clause scan. -/
inductive ScanRes
  | clean (st : SolverState)
  | confl (st : SolverState)
  | unitFound (st : SolverState)

/-- The defensive fallback scan at the end of `unitPropagate`: every live
nonempty clause is checked; an all-false clause is a conflict, a clause
with exactly one unassigned literal propagates it and restarts the whole
propagation.  (The unreachable "direct contradiction" re-check is again
omitted: the propagated variable was just counted unassigned.) -/
def fallbackScanGo (st : SolverState) : List Nat → ScanRes
  | [] => .clean st
  | i :: rest =>
    match st.db.clauses.getD i none with
    | none => fallbackScanGo st rest
    | some c =>
      if c.literals.isEmpty then fallbackScanGo st rest
      else
        let (s, u, lastLit) := scanCountGo st.assignments c.literals 0 0 0
        if s > 0 then fallbackScanGo st rest
        else if u = 0 then .confl { st with conflict_clause_id := i }
        else if u = 1 then .unitFound (enqueueProp st lastLit i)
        else fallbackScanGo st rest

/-- Fuel that always suffices for one trail walk: the trail can only grow
by one entry per variable mentioned anywhere plus the spurious
variable 0. -/
def walkFuel (st : SolverState) : Nat :=
  st.trail.length + st.db.clauses.foldl
    (fun acc oc => match oc with
      | none => acc
      | some c => acc + c.literals.length) 0 + st.db.num_variables + 4

/-- `CDCLSolverIncremental::unitPropagate`: walk the trail through the
watch lists, then run the fallback scan; a unit found there restarts the
procedure.  Returns `some (false, st)` on conflict or timeout (the
source returns plain `false` for both), `some (true, st)` when stable. -/
def unitPropagate (o : Oracle) : Nat → SolverState → Option (Bool × SolverState)
  | 0, _ => none
  | f + 1, st =>
    match walkTrail o (walkFuel st) st 0 with
    | .fuelOut => none
    | .timedOut st' => some (false, st')
    | .confl st' => some (false, st')
    | .reachedEnd st' =>
      match fallbackScanGo st' (List.range st'.db.clauses.length) with
      | .clean st'' => some (true, st'')
      | .confl st'' => some (false, st'')
      | .unitFound st'' => unitPropagate o f st''

/-! ## Conflict analysis (`CDCLSolverIncremental::analyzeConflict`) -/

/-- Insertion sort of `Int`s ascending (`std::sort` on literals). -/
def insertIntAsc (x : Int) : List Int → List Int
  | [] => [x]
  | y :: rest => if x ≤ y then x :: y :: rest else y :: insertIntAsc x rest

/-- Sort literals ascending. -/
def sortInts (l : List Int) : List Int :=
  l.foldl (fun acc x => insertIntAsc x acc) []

/-- Tail of `std::unique`: drop elements equal to the previous kept one. -/
def dedupAdjGo (x : Int) : List Int → List Int
  | [] => []
  | y :: rest => if x = y then dedupAdjGo x rest else y :: dedupAdjGo y rest

/-- `std::unique` after sorting: drop adjacent duplicates. -/
def dedupAdj : List Int → List Int
  | [] => []
  | x :: rest => x :: dedupAdjGo x rest

/-- Insertion sort of trail indices descending (reverse-sorted
`current_level_indices`). -/
def insertNatDesc (x : Nat) : List Nat → List Nat
  | [] => [x]
  | y :: rest => if x ≥ y then x :: y :: rest else y :: insertNatDesc x rest

/-- Sort trail indices descending. -/
def sortNatDesc (l : List Nat) : List Nat :=
  l.foldl (fun acc x => insertNatDesc x acc) []

/-- Collect the variables of the working clause whose trail entry is at
the current decision level (`current_level_vars`; unordered-set
insertion order is first occurrence). -/
def collectCurrentLevelVars (st : SolverState) (lits : List Int) : List Int :=
  lits.foldl
    (fun acc l =>
      let var := litVar l
      match assocFind st.var_to_trail var with
      | none => acc
      | some ti =>
        if (st.trail.getD ti default).decision_level = st.decision_level then
          if var ∈ acc then acc else acc ++ [var]
        else acc)
    []

/-- Accumulator for one resolution step: working clause, current-level
variable set, index list, backjump level. -/
structure ResolveAcc where
  L : List Int
  set : List Int
  idxs : List Nat
  btl : Int

/-- Union the antecedent's literals (except the resolved variable) into
the working clause, tracking new current-level variables and the
second-highest decision level. -/
def addAnteLits (st : SolverState) (var : Int) (ante : List Int)
    (acc : ResolveAcc) : ResolveAcc :=
  ante.foldl
    (fun acc l =>
      if litVar l ≠ var ∧ l ∉ acc.L then
        let acc := { acc with L := acc.L ++ [l] }
        let lit_var := litVar l
        match assocFind st.var_to_trail lit_var with
        | none => acc
        | some ti =>
          let node := st.trail.getD ti default
          if node.decision_level = st.decision_level then
            if lit_var ∈ acc.set then acc
            else { acc with set := acc.set ++ [lit_var], idxs := acc.idxs ++ [ti] }
          else if node.decision_level > acc.btl ∧ node.decision_level ≠ st.decision_level then
            { acc with btl := node.decision_level }
          else acc
      else acc)
    acc

/-- The resolution loop of `analyzeConflict`: while more than one
current-level variable remains, resolve the most recent resolvable trail
entry against its antecedent.  Returns `(timed_out, backjump_level,
working clause, state)`; `none` is fuel exhaustion (the loop can cycle
forever when antecedents are corrupted). -/
def resolveLoop (o : Oracle) :
    Nat → SolverState → ResolveAcc → Nat → Option (Bool × Int × List Int × SolverState)
  | 0, _, _, _ => none
  | f + 1, st, acc, pos =>
    if acc.set.length > 1 ∧ pos < acc.idxs.length then
      let p := if pos % 100 = 0 then checkTimeout o st else (false, st)
      let st := p.2
      if p.1 then some (true, 0, acc.L, st)
      else
        let ti := acc.idxs.getD pos 0
        let node := st.trail.getD ti default
        let var := litVar node.literal
        if var ∉ acc.set ∨ node.is_decision ∨ node.antecedent_id = noAnte then
          resolveLoop o f st acc (pos + 1)
        else
          let ante :=
            match st.db.clauses.getD node.antecedent_id none with
            | some c => c.literals
            | none => []
          let acc := { acc with L := acc.L.filter (fun l => litVar l ≠ var) }
          let acc := addAnteLits st var ante acc
          let acc := { acc with set := acc.set.erase var, idxs := sortNatDesc acc.idxs }
          resolveLoop o f st acc 0
    else some (false, acc.btl, acc.L, st)

/-- The assumption-preservation pass at the end of `analyzeConflict`:
each assumption whose variable is absent from the learned clause but
assigned at level 0 is pushed (with its own polarity) onto the clause. -/
def preserveAssumptions (st : SolverState) (L : List Int) : List Int :=
  st.assumptions.foldl
    (fun L a =>
      let var := litVar a
      if L.any (fun l => litVar l = var) then L
      else
        match assocFind st.var_to_trail var with
        | none => L
        | some _ =>
          if st.decision_levels.getD var.natAbs 0 = 0 then L ++ [a] else L)
    L

/-- `CDCLSolverIncremental::analyzeConflict`: first-UIP-style resolution
from the conflict clause, then sort-and-dedupe and the
assumption-preservation pass.  Returns `(backjump_level, learned
clause, state)`.  A timeout inside the loop returns level 0 with the
partially resolved clause, skipping the post-processing (the source's
early `return 0`). -/
def analyzeConflict (o : Oracle) (fuel : Nat) (st : SolverState)
    (conflict_id : Nat) : Option (Int × List Int × SolverState) :=
  let learned0 :=
    match st.db.clauses.getD conflict_id none with
    | some c => c.literals
    | none => []
  let clv := collectCurrentLevelVars st learned0
  let idxs := sortNatDesc (clv.filterMap (fun var => assocFind st.var_to_trail var))
  match resolveLoop o fuel st ⟨learned0, clv, idxs, 0⟩ 0 with
  | none => none
  | some (timed, btl, L, st) =>
    if timed then some (btl, L, st)
    else
      let L := dedupAdj (sortInts L)
      let L := preserveAssumptions st L
      some (btl, L, st)

/-- The UNSAT-core extraction loop (duplicated verbatim in the source at
the initial-propagation conflict and the level-0 conflict): keep each
assumption whose negation is in the final learned clause and whose
variable sits on the trail as a level-0 decision. -/
def extractCoreFrom (assumptions : List Int) (L : List Int)
    (trail : List TrailNode) (v2t : List (Int × Nat)) : List Int :=
  assumptions.foldl
    (fun core a =>
      if (-a) ∈ L then
        match assocFind v2t (litVar a) with
        | none => core
        | some ti =>
          let node := trail.getD ti default
          if node.decision_level = 0 ∧ node.is_decision then core ++ [a] else core
      else core)
    []

/-! ## Clause minimization (`minimizeClause` / `isRedundant`)

The periodic checks `elapsed > max_minimize_time || checkTimeout()` are
each modelled as one oracle timeout poll (an arbitrary boolean, which
covers every outcome of the two physical clocks). -/

/-- The reason-clause loop of `isRedundant`, threading the shared check
counter.  Returns `(lit is not blocked so far, counter, state)`. -/
def redundantReasonLoop (o : Oracle) (st : SolverState) (var : Int)
    (seen : List Int) : List Int → Nat → Bool × Nat × SolverState
  | [], cnt => (true, cnt, st)
  | rl :: rest, cnt =>
    let p := if cnt % 50 = 0 then checkTimeout o st else (false, st)
    let st := p.2
    let cnt := cnt + 1
    if p.1 then (false, cnt, st)
    else if litVar rl = var then redundantReasonLoop o st var seen rest cnt
    else if (-rl) ∈ seen then redundantReasonLoop o st var seen rest cnt
    else
      let rvar := litVar rl
      match assocFind st.var_to_trail rvar with
      | none => (false, cnt, st)
      | some rti =>
        if st.decision_levels.getD rvar.natAbs 0 > st.decision_levels.getD var.natAbs 0 then
          (false, cnt, st)
        else if (st.trail.getD rti default).decision_level = 0 then (false, cnt, st)
        else redundantReasonLoop o st var seen rest cnt

/-- `CDCLSolverIncremental::isRedundant`: a literal is deemed redundant
when it is a propagated, non-assumption literal whose antecedent's other
literals are all either negated-seen or assigned at a nonzero level not
above the literal's own.  (The recursive sub-check of proper recursive
minimization is absent from the source.) -/
def isRedundant (o : Oracle) (st : SolverState) (l : Int) (seen : List Int)
    (cnt : Nat) : Bool × Nat × SolverState :=
  let p := if cnt % 50 = 0 then checkTimeout o st else (false, st)
  let st := p.2
  let cnt := cnt + 1
  if p.1 then (false, cnt, st)
  else
    let var := litVar l
    match assocFind st.var_to_trail var with
    | none => (false, cnt, st)
    | some ti =>
      let node := st.trail.getD ti default
      if node.is_decision ∨ node.antecedent_id = noAnte then (false, cnt, st)
      else if l ∈ st.assumptions then (false, cnt, st)
      else
        match st.db.clauses.getD node.antecedent_id none with
        | none => (false, cnt, st)
        | some reason => redundantReasonLoop o st var seen reason.literals cnt

/-- The per-literal loop of `minimizeClause`.  Returns `none` when a
timeout poll fires (the source then keeps the original clause). -/
def minimizeLoop (o : Oracle) (st : SolverState) (seen : List Int) :
    List Int → List Int → Nat → Option (List Int × Nat × SolverState)
  | [], minimized, cnt => some (minimized, cnt, st)
  | l :: rest, minimized, cnt =>
    let p := if cnt % 50 = 0 then checkTimeout o st else (false, st)
    let st := p.2
    let cnt := cnt + 1
    if p.1 then none
    else
      let var := litVar l
      if (assocFind st.var_to_trail var).isSome ∧
          st.decision_levels.getD var.natAbs 0 = 0 then
        minimizeLoop o st seen rest (minimized ++ [l]) cnt
      else if l ∈ st.assumptions then
        minimizeLoop o st seen rest (minimized ++ [l]) cnt
      else
        match isRedundant o st l seen cnt with
        | (red, cnt, st) =>
          if red then minimizeLoop o st seen rest minimized cnt
          else minimizeLoop o st seen rest (minimized ++ [l]) cnt

/-- `CDCLSolverIncremental::minimizeClause`: skip very large or unit
clauses, mark the clause's literals as seen, drop the literals deemed
redundant; on any timeout the clause is left unchanged. -/
def minimizeClause (o : Oracle) (st : SolverState) (clause : List Int) :
    List Int × SolverState :=
  if clause.length > 100 then (clause, st)
  else
    let p := checkTimeout o st
    let st := p.2
    if p.1 then (clause, st)
    else if clause.length ≤ 1 then (clause, st)
    else
      let seen := clause
      match minimizeLoop o st seen clause [] 0 with
      | none => (clause, st)
      | some (minimized, _, st) =>
        if minimized.length < clause.length then (minimized, st) else (clause, st)

/-! ## Decision heuristics (`selectVarVSIDS` / `makeDecision`) -/

/-- The clause-to-variable ratio regime.  The source computes
`double(num_clauses) / num_variables` and tests `ratio ≥ 4.0 ∧ ≤ 4.5`
(the phase-transition band).  Division by zero follows IEEE: `c/0 = +∞`
lands above the band, `0/0 = NaN` compares false everywhere and lands in
the final `else` (below). -/
inductive RatioBand | below | band | above
  deriving Repr, DecidableEq

/-- Classify the ratio as written by the source's comparisons. -/
def ratioBand (clauses vars : Nat) : RatioBand :=
  if vars = 0 then (if clauses = 0 then .below else .above)
  else if 4 * vars ≤ clauses ∧ 2 * clauses ≤ 9 * vars then .band
  else if 2 * clauses > 9 * vars then .above
  else .below

/-- `CDCLSolverIncremental::selectVarVSIDS`: with some probability pick a
uniformly random unassigned variable; otherwise take the unassigned
variable of maximal absolute activity (map iteration order; strict
improvement, so a unique maximum is order-independent), falling back to
the first unassigned variable by index.  Returns 0 when every variable
in `1..num_variables` is assigned. -/
def selectVarVSIDS (o : Oracle) (st : SolverState) : Int × SolverState :=
  let p := drawBool o st
  let st := p.2
  let unassigned := ((List.range' 1 st.db.getNumVariables).map
    (fun v => (v : Int))).filter
    (fun v => (assocFind st.assignments v).isNone)
  if p.1 ∧ unassigned ≠ [] then
    let q := drawNat o st unassigned.length
    (unassigned.getD q.1 0, q.2)
  else
    let best := st.activity.foldl
      (fun (acc : Int × Dbl) p =>
        if (assocFind st.assignments p.1).isSome then acc
        else if acc.2.blt p.2.fabs then (p.1, p.2.fabs) else acc)
      (0, Dbl.ofInt (-1))
    let best_var :=
      if best.1 = 0 then
        match ((List.range' 1 st.db.getNumVariables).map
            (fun v => (v : Int))).find?
            (fun v => (assocFind st.assignments v).isNone) with
        | some v => v
        | none => 0
      else best.1
    (best_var, st)

/-- Count positive/negative occurrences of `var` over all live clauses. -/
def countOccurrences (db : ClauseDatabase) (var : Int) : Nat × Nat :=
  db.clauses.foldl
    (fun acc oc =>
      match oc with
      | none => acc
      | some c =>
        c.literals.foldl
          (fun (acc : Nat × Nat) l =>
            if litVar l = var then
              if 0 < l then (acc.1 + 1, acc.2) else (acc.1, acc.2 + 1)
            else acc)
          acc)
    (0, 0)

/-- The polarity choice of `makeDecision` (phase-transition-aware):
random draws are oracle booleans, deterministic branches compare the
activity bias and occurrence counts exactly as the source does. -/
def choosePolarity (o : Oracle) (st : SolverState) (bias : Dbl)
    (pos neg : Nat) : Bool × SolverState :=
  match ratioBand st.db.getNumClauses st.db.getNumVariables with
  | .band =>
    let p := drawBool o st
    let st := p.2
    if p.1 then drawBool o st
    else if (Dbl.frac 1 10).blt bias.fabs then ((Dbl.ofInt 0).blt bias, st)
    else (decide (pos ≥ neg), st)
  | .above =>
    let p := drawBool o st
    let st := p.2
    if p.1 then drawBool o st
    else (decide ((Dbl.ofInt 0).blt bias = decide (pos ≥ neg)), st)
  | .below =>
    if st.stuck_counter > 0 then drawBool o st
    else if (Dbl.frac 1 10).blt bias.fabs then ((Dbl.ofInt 0).blt bias, st)
    else (decide (pos ≥ neg), st)

/-- `CDCLSolverIncremental::makeDecision`: pick a variable by VSIDS
(returns `false` when none is left), bump the decision level, choose a
polarity, and push the decision onto the trail. -/
def makeDecision (o : Oracle) (st : SolverState) : Bool × SolverState :=
  let p := selectVarVSIDS o st
  let var := p.1
  let st := p.2
  if var = 0 then (false, st)
  else
    let st := { st with decision_level := st.decision_level + 1 }
    let st := { st with max_decision_level :=
      (if st.max_decision_level ≤ st.decision_level then st.decision_level
       else st.max_decision_level),
                        decisions := st.decisions + 1 }
    let occ := countOccurrences st.db var
    let bias := (assocFind st.activity var).getD (Dbl.ofInt 0)
    let q := choosePolarity o st bias occ.1 occ.2
    let value := q.1
    let st := q.2
    let lit := if value then var else -var
    let st := { st with
      trail := st.trail ++ [⟨lit, st.decision_level, noAnte, true⟩],
      var_to_trail := assocInsert st.var_to_trail var st.trail.length,
      assignments := assocInsert st.assignments var value,
      decision_levels := st.decision_levels.set var.natAbs st.decision_level }
    (true, st)

/-! ## The main solving loop (`CDCLSolverIncremental::solve`) -/

/-- The local variables of the main loop. -/
structure Locals where
  iterations : Int
  last_conflict_count : Int
  last_decision_count : Int
  last_propagation_count : Int
  last_restart_count : Int
  no_progress_count : Int
  last_learned_clause_size : Int
  consecutive_restarts : Int
  last_decision_level : Int
  stuck_at_level_count : Int

/-- Loop locals at the start of a solve. -/
def initLocals : Locals :=
  ⟨0, 0, 0, 0, 0, 0, 0, 0, 0, 0⟩

/-- One `if (cond) { progress = true; ...reset... }` step of the
progress bookkeeping. -/
def progressStep (pl : Bool × SolverState × Locals) (cond : Bool) :
    Bool × SolverState × Locals :=
  if cond then
    (true, { pl.2.1 with stuck_counter := 0 },
      { pl.2.2 with no_progress_count := 0, consecutive_restarts := 0,
                    stuck_at_level_count := 0 })
  else pl

/-- The progress / stall bookkeeping at the top of each iteration
(lines 256-330 of the source): detect progress in any counter, reset or
advance the stall counters, and update the `last_*` snapshots. -/
def progressCheck (st : SolverState) (loc : Locals) : Bool × SolverState × Locals :=
  let step := progressStep
  let pl := step (false, st, loc) (st.conflicts > loc.last_conflict_count)
  let pl := step pl (st.decisions > loc.last_decision_count)
  let pl := step pl (st.propagations > loc.last_propagation_count)
  let pl := step pl ((st.db.getNumLearnedClauses : Int) > loc.last_learned_clause_size)
  let pl := step pl (st.decision_level > loc.last_decision_level)
  let pl :=
    if st.decision_level = loc.last_decision_level ∧
        ¬(st.decision_level > loc.last_decision_level) then
      (pl.1, pl.2.1, { pl.2.2 with stuck_at_level_count := pl.2.2.stuck_at_level_count + 1 })
    else pl
  let pl :=
    if st.restarts > loc.last_restart_count then
      (true, { pl.2.1 with stuck_counter := 0 },
        { pl.2.2 with no_progress_count := 0,
                      consecutive_restarts := pl.2.2.consecutive_restarts + 1,
                      stuck_at_level_count := 0 })
    else pl
  let loc' := { pl.2.2 with
    last_conflict_count := st.conflicts
    last_decision_count := st.decisions
    last_propagation_count := st.propagations
    last_restart_count := st.restarts
    last_learned_clause_size := (st.db.getNumLearnedClauses : Int)
    last_decision_level := st.decision_level }
  (pl.1, pl.2.1, loc')

/-- Outcome of the stall-handling block: either continue with updated
state/locals, or give up (`no_progress_count > 2000` returns UNSAT). -/
def stallHandling (st : SolverState) (loc : Locals) :
    Bool × SolverState × Locals :=
  let st := { st with stuck_counter := st.stuck_counter + 1 }
  let loc := { loc with no_progress_count := loc.no_progress_count + 1 }
  let sl : SolverState × Locals :=
    if st.stuck_counter > 50 then
      if loc.consecutive_restarts > 10 then
        let st := { st with db := st.db.clearLearnedClauses }
        let st := initVSIDS st
        ({ st with stuck_counter := 0 }, { loc with consecutive_restarts := 0 })
      else
        ({ doRestart st with stuck_counter := 0 }, loc)
    else (st, loc)
  let st := sl.1
  let loc := sl.2
  let sl : SolverState × Locals :=
    if loc.stuck_at_level_count > 400 then
      (backtrack st (if st.decision_level - 1 ≤ 0 then 0 else st.decision_level - 1),
        { loc with stuck_at_level_count := 0 })
    else (st, loc)
  let st := sl.1
  let loc := sl.2
  (loc.no_progress_count > 2000, st, loc)

/-- One conflict of the main loop at decision level `> 0` (lines
455-488): analyze, minimize, store the learned clause with its LBD,
backjump, bump and decay activities.  Returns `none` on fuel exhaustion,
`some (some st)` for an early timeout return, `some (none)` packaged as
the continuing state via `Sum`. -/
def handleConflict (o : Oracle) (fuel : Nat) (st : SolverState) :
    Option (Sum SolverState SolverState) :=
  match analyzeConflict o fuel st st.conflict_clause_id with
  | none => none
  | some (btl, L0, st) =>
    let p := checkTimeout o st
    let st := p.2
    if p.1 then some (.inl { st with exitReason := .timeoutExit })
    else
      let q := minimizeClause o st L0
      let L := q.1
      let st := q.2
      let lbd := if st.use_lbd then st.db.computeLBD L st.decision_levels
                 else (L.length : Int)
      let idb := st.db.addLearnedClause L lbd
      let st := { st with db := idb.2 }
      let st := { st with learnLog :=
        st.learnLog ++ [LearnEvent.mk st.decision_level L0 L st.decision_levels] }
      let st := backtrack st btl
      let st := L.foldl (fun st l => bumpVarActivity st (litVar l)) st
      let st := decayVarActivities st
      let st := { st with db := st.db.decayClauseActivities }
      some (.inr st)

/-- The main CDCL loop (lines 241-511), fuelled by the iteration budget.
Each iteration: timeout poll, progress/stall bookkeeping, scheduled
restart, propagate, then analyze a conflict or decide.  Reaching
`MAX_ITERATIONS` returns UNSAT. -/
def solveLoop (o : Oracle) : Nat → SolverState → Locals → Option (Bool × SolverState)
  | 0, _, _ => none
  | f + 1, st, loc =>
    if loc.iterations ≥ 1000000 then
      some (false, { st with exitReason := .maxIterations })
    else
      let loc := { loc with iterations := loc.iterations + 1 }
      let p := checkTimeout o st
      let st := p.2
      if p.1 then some (false, { st with exitReason := .timeoutExit })
      else
        let psl := progressCheck st loc
        let progress := psl.1
        let st := psl.2.1
        let loc := psl.2.2
        let gsl :=
          if !progress then stallHandling st loc
          else (false, st, loc)
        let giveUp := gsl.1
        let st := gsl.2.1
        let loc := gsl.2.2
        if giveUp then some (false, { st with exitReason := .stuckExit })
        else
          match shouldRestart st with
          | none => none
          | some sr =>
            let st := if sr then doRestart st else st
            match unitPropagate o (f + 1) st with
            | none => none
            | some (true, st) =>
              let md := makeDecision o st
              if md.1 then solveLoop o f md.2 loc
              else some (true, { md.2 with exitReason := .satisfiable })
            | some (false, st) =>
              let st := { st with conflicts := st.conflicts + 1,
                                  conflicts_since_restart := st.conflicts_since_restart + 1 }
              if st.decision_level = 0 then
                match analyzeConflict o (f + 1) st st.conflict_clause_id with
                | none => none
                | some (_btl, L, st) =>
                  let st := { st with learnLog :=
                    st.learnLog ++ [LearnEvent.mk st.decision_level L L st.decision_levels] }
                  let core := extractCoreFrom st.assumptions L st.trail st.var_to_trail
                  some (false, { st with core := core, lastLearned := L,
                                         exitReason := .level0Conflict })
              else
                match handleConflict o (f + 1) st with
                | none => none
                | some (.inl st) => some (false, st)
                | some (.inr st) => solveLoop o f st loc

/-- The pairwise contradictory-assumption pre-check (lines 92-110):
the first pair `(i, j)` with `i < j` and `A[i] = -A[j]`. -/
def findContra : List Int → Option (Int × Int)
  | [] => none
  | l :: rest =>
    match rest.find? (fun l2 => decide (l = -l2)) with
    | some l2 => some (l, l2)
    | none => findContra rest

/-- Enqueue the assumptions at level 0 (lines 130-156): each assumption
is pushed as a level-0 decision; an assumption contradicting a previous
one aborts with a singleton core.  (The pre-check makes the abort
unreachable, but it is translated faithfully.) -/
def applyAssumptions (st : SolverState) : List Int → Sum SolverState SolverState
  | [] => .inl st
  | lit :: rest =>
    let var := litVar lit
    let value := decide (0 < lit)
    match assocFind st.assignments var with
    | some v =>
      if v ≠ value then
        .inr { st with core := [lit], exitReason := .duplicateAssumption }
      else
        applyAssumptions
          { st with trail := st.trail ++ [⟨lit, 0, noAnte, true⟩],
                    var_to_trail := assocInsert st.var_to_trail var st.trail.length,
                    assignments := assocInsert st.assignments var value,
                    decision_levels := st.decision_levels.set var.natAbs 0 }
          rest
    | none =>
      applyAssumptions
        { st with trail := st.trail ++ [⟨lit, 0, noAnte, true⟩],
                  var_to_trail := assocInsert st.var_to_trail var st.trail.length,
                  assignments := assocInsert st.assignments var value,
                  decision_levels := st.decision_levels.set var.natAbs 0 }
        rest

/-- The state reset at the start of `solve` (lines 112-127): store the
assumptions, clear trail / maps / assignments, zero all decision levels,
and (re)initialize the watches (`last_solved_until` is invariably `-1`). -/
def solveResetState (st : SolverState) (assume : List Int) : SolverState :=
  let st := { st with assumptions := assume, exitReason := .unset }
  let st := { st with trail := [], var_to_trail := [], assignments := [],
                      decision_levels := st.decision_levels.map (fun _ => 0),
                      decision_level := 0, conflicts_since_restart := 0 }
  if st.last_solved_until = -1 then { st with db := st.db.initWatches } else st

/-- The body of `solve` after the pre-check and reset: enqueue the
assumptions, run the initial propagation (extracting a core on
conflict), then enter the main loop. -/
def solveMain (o : Oracle) (fuel : Nat) (st : SolverState) :
    Option (Bool × SolverState) :=
  match applyAssumptions st st.assumptions with
  | .inr st => some (false, st)
  | .inl st =>
    match unitPropagate o fuel st with
    | none => none
    | some (false, st) =>
      let st := { st with conflicts := st.conflicts + 1 }
      match analyzeConflict o fuel st st.conflict_clause_id with
      | none => none
      | some (_btl, L, st) =>
        let lbd := if st.use_lbd then st.db.computeLBD L st.decision_levels
                   else (L.length : Int)
        let idb := st.db.addLearnedClause L lbd
        let st := { st with db := idb.2 }
        let st := { st with learnLog :=
          st.learnLog ++ [LearnEvent.mk st.decision_level L L st.decision_levels] }
        let st := L.foldl (fun st l => bumpVarActivity st (litVar l)) st
        let st := decayVarActivities st
        let core := extractCoreFrom st.assumptions L st.trail st.var_to_trail
        some (false, { st with core := core, lastLearned := L,
                               exitReason := .initialConflict })
    | some (true, st) =>
      let st := { st with stuck_counter := 0 }
      solveLoop o fuel st initLocals

/-- `CDCLSolverIncremental::solve(assumptions)`: the contradictory-pair
pre-check, then the reset and main body. -/
def solve (o : Oracle) (fuel : Nat) (st : SolverState) (assume : List Int) :
    Option (Bool × SolverState) :=
  match findContra assume with
  | some (l1, l2) =>
    some (false, { st with assumptions := assume, core := [l1, l2],
                           exitReason := .contradictoryAssumptions })
  | none => solveMain o fuel (solveResetState st assume)

/-- The `CDCLSolverIncremental` constructor: size the variable range from
the formula, add every clause to the database, initialize VSIDS. -/
def mkSolver (formula : List (List Int)) : SolverState :=
  let num_vars := formula.foldl (fun acc c => c.foldl (fun a l => max a l.natAbs) acc) 0
  let db := mkClauseDatabase num_vars
  let db := formula.foldl (fun db c => (db.addClause c).2) db
  initVSIDS
    { db := db
      assignments := []
      trail := []
      var_to_trail := []
      decision_level := 0
      decision_levels := List.replicate (num_vars + 1) 0
      activity := []
      var_inc := Dbl.ofInt 1
      var_decay := Dbl.frac 19 20
      conflicts_since_restart := 0
      restart_threshold := 100
      restart_multiplier := Dbl.frac 3 2
      luby_index := 1
      use_luby_restarts := true
      assumptions := []
      core := []
      last_solved_until := -1
      conflicts := 0
      decisions := 0
      propagations := 0
      restarts := 0
      max_decision_level := 0
      use_lbd := true
      use_phase_saving := true
      conflict_clause_id := 0
      stuck_counter := 0
      tCnt := 0
      rCnt := 0
      nCnt := 0
      exitReason := .unset
      lastLearned := []
      learnLog := [] }

/-- `CDCLSolverIncremental::addTemporaryClause`: add as an original
clause, then flip its core flag off; initialize activity and widen the
level array for any new variables. -/
def addTemporaryClause (st : SolverState) (clause : List Int) : SolverState :=
  let idb := st.db.addClause clause
  let db :=
    match idb.2.clauses.getD idb.1 none with
    | some c => idb.2.setClause idb.1 { c with is_core := false }
    | none => idb.2
  let st := { st with db := db }
  clause.foldl
    (fun st l =>
      let var := litVar l
      if (assocFind st.activity var).isNone then
        let st := { st with activity := assocInsert st.activity var (Dbl.ofInt 0) }
        if st.decision_levels.length ≤ var.natAbs then
          { st with decision_levels :=
              st.decision_levels ++ List.replicate (var.natAbs + 1 - st.decision_levels.length) 0 }
        else st
      else st)
    st

/-- `CDCLSolverIncremental::newVariable`: reads the current variable
count as the returned identifier, initializes its activity and level
slot, then increments the database's variable count. -/
def newVariable (st : SolverState) : Int × SolverState :=
  let new_var : Int := (st.db.getNumVariables : Int)
  let st := { st with activity := assocInsert st.activity new_var (Dbl.ofInt 0) }
  let st :=
    if st.decision_levels.length ≤ new_var.natAbs then
      { st with decision_levels :=
          st.decision_levels ++ List.replicate (new_var.natAbs + 1 - st.decision_levels.length) 0 }
    else st
  let st := { st with db := (st.db.addVariable).2 }
  (new_var, st)

/-- Oracle whose probability comparisons all come out true (used where
the source's computed probability exceeds 1, forcing the branch). -/
def randOracle : Oracle := ⟨fun _ => false, fun _ => true, fun _ => 0⟩

/-- The number of literals of a ghost-logged learned clause whose
variable is recorded at the conflict's decision level. -/
def atLevelCount (e : LearnEvent) : Nat :=
  e.postMin.countP (fun l => decide (e.levelsSnap.getD (litVar l).natAbs 0 = e.conflict_level))

/-- Same count on the clause before minimization. -/
def atLevelCountPre (e : LearnEvent) : Nat :=
  e.preMin.countP (fun l => decide (e.levelsSnap.getD (litVar l).natAbs 0 = e.conflict_level))

/-- The temporary-clause round-trip scenario of the incremental
interface: add `{1}` permanently, add `{-1}` temporarily, solve twice,
and compare with a fresh solver on `{1}` alone. -/
def tempRoundTrip : Option (Bool × Bool × Bool) := do
  let st1 := addTemporaryClause (mkSolver [[1]]) [-1]
  let r1 ← solve quietOracle 100 st1 []
  let r2 ← solve quietOracle 100 r1.2 []
  let r ← solve quietOracle 100 (mkSolver [[1]]) []
  pure (r1.1, r2.1, r.1)

/-- The formula of the level-≥1 first-UIP violation: variable 1 has the
strictly largest occurrence count, so the first decision is `1 = true`
independently of map iteration order; the conflict in `{-2,-3,-4}` at
level 1 learns `{-4, -2}`, and minimization then removes `-2` — the only
literal at the conflict level. -/
def uipFormula : List (List Int) :=
  [[4], [-1, 2], [-2, 3], [-2, -3, -4], [1, 5], [-1, 5], [1, -5], [1, -7]]

/-! ## Claim theorems -/

set_option maxRecDepth 1000000

/-- C1: the spec's soundness property — `solve(F, A) = SAT(σ)` implies
`σ` satisfies every core clause of `F` and every literal of `A` — fails
on the code: on `F = {{1}, {}}` (which contains an empty clause) the
solver returns SAT with `σ = {1 ↦ true}`, yet `σ` does not satisfy the
empty core clause `{}` of `F`.  Propagation's fallback scan skips empty
clauses (`literals.empty()` ⇒ `continue`), so nothing ever reports them. -/
def StepRes.st : StepRes → SolverState
  | .next s => s
  | .confl s => s

def WalkRes.keeps (st : SolverState) : WalkRes → Prop
  | .reachedEnd s => s.assumptions = st.assumptions
  | .confl s => s.assumptions = st.assumptions
  | .timedOut s => s.assumptions = st.assumptions
  | .fuelOut => True

def ScanRes.keeps (st : SolverState) : ScanRes → Prop
  | .clean s => s.assumptions = st.assumptions
  | .confl s => s.assumptions = st.assumptions
  | .unitFound s => s.assumptions = st.assumptions

/-- Whether literal `a`'s variable sits on the trail as a decision made
at decision level 0 (the membership test of the core-extraction loop,
read through `var_to_trail`). -/
def levelZeroDecisionOnTrail (trail : List TrailNode) (v2t : List (Int × Nat))
    (a : Int) : Bool :=
  match assocFind v2t (litVar a) with
  | none => false
  | some ti =>
    match trail.get? ti with
    | none => false
    | some node => decide (node.decision_level = 0) && node.is_decision

/-- Modelled from the spec: the UNSAT core is the set
`{ a ∈ assumptions : -a ∈ L, a is a level-0 decision on the trail }`,
read off as a filter of the assumption list. -/
def specCore (assumptions L : List Int) (trail : List TrailNode)
    (v2t : List (Int × Nat)) : List Int :=
  assumptions.filter
    (fun a => decide ((-a) ∈ L) && levelZeroDecisionOnTrail trail v2t a)

/-- The conflict-exit core contract: if the run ended by learning a
conflict clause (initial propagation or decision level 0), the answer is
UNSAT and the stored core is the extraction loop applied to the final
assumptions, learned clause and trail. -/
def coreOK (b : Bool) (s : SolverState) : Prop :=
  s.exitReason = ExitReason.initialConflict ∨
      s.exitReason = ExitReason.level0Conflict →
    b = false ∧
      s.core = extractCoreFrom s.assumptions s.lastLearned s.trail s.var_to_trail

/-- A literal that names a variable of the database's universe: nonzero
with `|l| ≤ num_variables`. -/
def legalLit (nv : Nat) (l : Int) : Prop :=
  l ≠ 0 ∧ l.natAbs ≤ nv

instance (nv : Nat) (l : Int) : Decidable (legalLit nv l) :=
  inferInstanceAs (Decidable (_ ∧ _))

/-- Watch-list consistency: the watch array has its canonical size
`2 * num_variables + 1`, and for every literal of the universe,
`getWatches` returns exactly the identifiers of the live clauses whose
current watched pair contains that literal. -/
def watchConsistent (db : ClauseDatabase) : Prop :=
  db.watches.length = 2 * db.num_variables + 1 ∧
  ∀ l : Int, legalLit db.num_variables l →
    ∀ cid : Nat, cid ∈ db.getWatches l ↔
      ∃ c, db.clauses.getD cid none = some c ∧
        (c.watched_lits.1 = l ∨ c.watched_lits.2 = l)

/-- The watched pair `initWatches` assigns to a live clause: the first
two literals, `(l, 0)` for a unit clause, and (untouched) the stored
pair for an empty clause. -/
def newWatchedPair (c : ClauseInfo) : Int × Int :=
  match c.literals with
  | l1 :: l2 :: _ => (l1, l2)
  | [l1] => (l1, 0)
  | [] => c.watched_lits

theorem solve_sat_despite_empty_clause :
    (solve quietOracle 100 (mkSolver [[1], []]) []).map
      (fun r => (r.1, satClause r.2.assignments [1], satClause r.2.assignments [])) =
      some (true, true, false) := by decide

/-- C2: completeness under idealized termination fails on the code.  On
`F = {{-1,2},{-2,3},{-2,-3}}` with assumptions `A = {1}`, the solve
concludes UNSAT from the initial-propagation conflict with an *empty*
core — no timeout fired (the oracle stream is constantly false) and no
portfolio is attached — yet `F ∧ ∅ = F` is satisfiable (all variables
false).  The final learned clause is `{-2, 1}`: the
assumption-preservation step added `+1` where core extraction tests for
`-1`, so assumption 1 is missed. -/
theorem solve_unsat_with_satisfiable_residual :
    ((solve quietOracle 100 (mkSolver [[-1, 2], [-2, 3], [-2, -3]]) [1]).map
      (fun r => (r.1, r.2.core, r.2.exitReason, r.2.lastLearned)) =
      some (false, [], .initialConflict, [-2, 1])) ∧
    ([[-1, 2], [-2, 3], [-2, -3]].all
      (satClause [(1, false), (2, false), (3, false)]) = true) ∧
    (∀ n, quietOracle.touts n = false) := by
  refine ⟨by decide, by decide, fun n => rfl⟩

/-- C3: a formula containing an empty clause is claimed to yield UNSAT
immediately; the code instead returns SAT.  On `F = {{}}` both under the
oracle that takes every probability branch (the real regime: the
clause/variable ratio is `1/0 = +∞`, forcing the random branch) and
under the all-false oracle, `solve` returns `true`. -/
theorem solve_sat_on_empty_clause_formula :
    (solve randOracle 100 (mkSolver [[]]) []).map
      (fun r => (r.1, r.2.exitReason)) = some (true, .satisfiable) ∧
    (solve quietOracle 100 (mkSolver [[]]) []).map (fun r => r.1) = some true := by
  exact ⟨by decide, by decide⟩

/-- C6: the temporary-clause round trip fails on the code.  With
permanent clause `{1}` and temporary clause `{-1}`, the first solve is
UNSAT; the second solve is *also* UNSAT because nothing ever drops
non-core clauses between solves (`clearLearnedClauses` is only reachable
from the dead stall path), while a fresh solver on `{1}` alone is SAT. -/
theorem temporary_clause_persists_across_solves :
    tempRoundTrip = some (false, false, true) := by decide

/-- C7: the first-UIP property fails on the code, in both directions.
On `uipFormula` the conflict at decision level 1 learns `{-4, -2}`
(exactly one literal, `-2`, at level 1) but `minimizeClause` erases that
literal, storing `{-4}` with zero literals at the conflict level.  And a
level-0 conflict under assumptions `{2, 3}` on `F = {{-2,-3}}` learns
`{-3, -2}` with two literals at the conflict level. -/
theorem learned_clause_uip_count_violations :
    ((solve quietOracle 300 (mkSolver uipFormula) []).map
      (fun r => r.2.learnLog.map (fun e => (e.conflict_level, atLevelCountPre e, atLevelCount e))) =
      some [(1, 1, 0), (0, 1, 1)]) ∧
    ((solve quietOracle 100 (mkSolver [[-2, -3]]) [2, 3]).map
      (fun r => r.2.learnLog.map (fun e => (e.conflict_level, atLevelCountPre e, atLevelCount e))) =
      some [(0, 2, 2)]) := by
  exact ⟨by decide, by decide⟩

/-- C8: `lubySequence` neither terminates for every `i ≥ 1` nor computes
the spec's Luby recurrence.  At `i = 3` the code recurses on
`3 - 2^0 + 1 = 3` and never terminates (the spec value is 2); at
`i = 2` it returns 2 where the recurrence gives 1.  The code tests
"odd part = 1" (i.e. `i` is a power of two) where its own comment says
"one less than a power of 2". -/
theorem lubySequence_diverges_and_disagrees :
    (∀ f, lubySequence f 3 = none) ∧
    lubySequence 128 1 = some 1 ∧ lubySequence 128 2 = some 2 ∧
    lubySpec 128 1 = some 1 ∧ lubySpec 128 2 = some 1 ∧ lubySpec 128 3 = some 2 := by
  refine ⟨fun f => ?_, by decide, by decide, by decide, by decide, by decide⟩
  induction f with
  | zero => rfl
  | succ n ih => rw [show lubySequence (n + 1) 3 = lubySequence n 3 from rfl]; exact ih

/-- C10: `newVariable` does not return a fresh identifier.  On a solver
built from `{{1, 2}}` (two variables) it returns 2 — the identifier of
an existing variable occurring in the clause — and only afterwards
raises the database's count to 3.  The database's own `addVariable`
returns the correct fresh identifier 3, which `newVariable` discards. -/
theorem newVariable_returns_existing_identifier :
    (newVariable (mkSolver [[1, 2]])).1 = 2 ∧
    (mkSolver [[1, 2]]).db.getNumVariables = 2 ∧
    (newVariable (mkSolver [[1, 2]])).2.db.getNumVariables = 3 ∧
    ((mkSolver [[1, 2]]).db.addVariable).1 = 3 ∧
    (2 : Int) ∈ ([1, 2] : List Int) := by decide

/-- C9 (counterexample): the watch-list invariant is *not* preserved by
`addVariable`.  A database over one variable watching clause `{-1}`
registers it in bucket `1 + 1 = 2`; after `addVariable` the lookup for
`-1` reads bucket `2 + 1 = 3`, so `getWatches(-1)` is empty although
clause 0 is live and its watched pair still contains `-1`. -/
theorem getWatches_misses_after_addVariable :
    ((mkClauseDatabase 1).addClause [-1]).2.getWatches (-1) = [0] ∧
    ((((mkClauseDatabase 1).addClause [-1]).2.addVariable).2.getWatches (-1) = []) ∧
    ((((((mkClauseDatabase 1).addClause [-1]).2.addVariable).2.clauses.getD 0 none).map
      (fun c => c.watched_lits)) = some (-1, 0)) := by decide

/-! ## C4: the contradictory-assumption pre-check -/

/-- When a nonzero literal and its negation both occur in the assumption
list, the pairwise pre-check finds a contradictory pair (both members of
the list, one the negation of the other). -/
theorem findContra_finds_pair (A : List Int) (l : Int) (hl : l ≠ 0)
    (h1 : l ∈ A) (h2 : -l ∈ A) :
    ∃ a b, findContra A = some (a, b) ∧ a ∈ A ∧ b ∈ A ∧ a = -b := by
  induction A with
  | nil => cases h1
  | cons x rest ih =>
    rw [findContra]
    cases hf : rest.find? (fun l2 => decide (x = -l2)) with
    | some y =>
      refine ⟨x, y, rfl, List.mem_cons_self x rest, ?_, ?_⟩
      · exact List.mem_cons_of_mem x (List.mem_of_find?_eq_some hf)
      · have := List.find?_some hf
        simpa using this
    | none =>
      have hnone : ∀ y ∈ rest, ¬(x = -y) := by
        intro y hy
        have := List.find?_eq_none.mp hf y hy
        simpa using this
      have h1' : l ∈ rest := by
        rcases List.mem_cons.mp h1 with h | h
        · subst h
          rcases List.mem_cons.mp h2 with h' | h'
          · exfalso; apply hl; omega
          · exact absurd (neg_neg l).symm (hnone (-l) h')
        · exact h
      have h2' : -l ∈ rest := by
        rcases List.mem_cons.mp h2 with h | h
        · exfalso
          exact hnone l h1' (by omega)
        · exact h
      obtain ⟨a, b, hab, ha, hb, heq⟩ := ih h1' h2'
      exact ⟨a, b, hab, List.mem_cons_of_mem x ha, List.mem_cons_of_mem x hb, heq⟩

/-- C4: for every formula and every assumption list containing a
contradictory pair `l`, `-l`, `solve` returns UNSAT and the returned core
(`getUnsatCore`) is exactly a contradictory pair of assumptions — the
first such pair in scan order.  The pre-check (lines 91-110) fires before
any other work. -/
theorem solve_contradictory_assumptions_core
    (F : List (List Int)) (A : List Int) (o : Oracle) (fuel : Nat) (l : Int)
    (hl : l ≠ 0) (h1 : l ∈ A) (h2 : -l ∈ A) :
    ∃ a b, a ∈ A ∧ b ∈ A ∧ a = -b ∧
      (solve o fuel (mkSolver F) A).map (fun r => (r.1, r.2.core, r.2.exitReason)) =
        some (false, [a, b], .contradictoryAssumptions) := by
  obtain ⟨a, b, hab, ha, hb, heq⟩ := findContra_finds_pair A l hl h1 h2
  refine ⟨a, b, ha, hb, heq, ?_⟩
  rw [solve, hab]
  rfl

/-- Witness for C4 at `A = [1, -1]` on an empty formula. -/
theorem solve_contradictory_assumptions_core_witness :
    (1 : Int) ≠ 0 ∧ (1 : Int) ∈ ([1, -1] : List Int) ∧ (-1 : Int) ∈ ([1, -1] : List Int) ∧
    ∃ a b, a ∈ ([1, -1] : List Int) ∧ b ∈ ([1, -1] : List Int) ∧ a = -b ∧
      (solve quietOracle 100 (mkSolver []) [1, -1]).map
        (fun r => (r.1, r.2.core, r.2.exitReason)) =
        some (false, [a, b], .contradictoryAssumptions) :=
  ⟨by decide, by decide, by decide,
    solve_contradictory_assumptions_core [] [1, -1] quietOracle 100 1
      (by decide) (by decide) (by decide)⟩

/-! ## Invariance of the stored assumption list

`solve` stores the caller's assumption list once and nothing in the
solving machinery ever rewrites it; these lemmas make that precise for
each state-transforming function (needed to relate the extracted core to
the caller's list in the C5 theorem). -/

theorem assumptions_checkTimeout (o : Oracle) (st : SolverState) :
    (checkTimeout o st).2.assumptions = st.assumptions := rfl

theorem assumptions_drawBool (o : Oracle) (st : SolverState) :
    (drawBool o st).2.assumptions = st.assumptions := rfl

theorem assumptions_drawNat (o : Oracle) (st : SolverState) (n : Nat) :
    (drawNat o st n).2.assumptions = st.assumptions := rfl

theorem assumptions_enqueueProp (st : SolverState) (l : Int) (a : Nat) :
    (enqueueProp st l a).assumptions = st.assumptions := rfl

theorem assumptions_initVSIDS (st : SolverState) :
    (initVSIDS st).assumptions = st.assumptions := rfl

theorem assumptions_decayVarActivities (st : SolverState) :
    (decayVarActivities st).assumptions = st.assumptions := rfl

theorem assumptions_bumpVarActivity (st : SolverState) (v : Int) :
    (bumpVarActivity st v).assumptions = st.assumptions := by
  unfold bumpVarActivity; dsimp only; split <;> rfl

theorem assumptions_foldl_bump (L : List Int) (st : SolverState) :
    (L.foldl (fun st l => bumpVarActivity st (litVar l)) st).assumptions =
      st.assumptions := by
  induction L generalizing st with
  | nil => rfl
  | cons x xs ih => rw [List.foldl_cons, ih, assumptions_bumpVarActivity]

theorem assumptions_backtrackGo (f : Nat) (st : SolverState) (lv : Int) :
    (backtrackGo f st lv).assumptions = st.assumptions := by
  induction f generalizing st with
  | zero => rfl
  | succ n ih =>
    unfold backtrackGo
    split
    · rfl
    · split
      · rfl
      · rw [ih]

theorem assumptions_backtrack (st : SolverState) (lv : Int) :
    (backtrack st lv).assumptions = st.assumptions := by
  unfold backtrack; rw [show ({ backtrackGo st.trail.length st lv with
    decision_level := lv } : SolverState).assumptions =
      (backtrackGo st.trail.length st lv).assumptions from rfl,
    assumptions_backtrackGo]

theorem assumptions_doRestart (st : SolverState) :
    (doRestart st).assumptions = st.assumptions := by
  unfold doRestart
  dsimp only
  split <;> simpa using assumptions_backtrack st 0

/-- The state carried by a `StepRes`. -/
theorem assumptions_processClause (st : SolverState) (nl : Int) (cid : Nat) :
    (processClause st nl cid).st.assumptions = st.assumptions := by
  unfold processClause
  dsimp only
  repeat' split
  all_goals simp [StepRes.st, assumptions_enqueueProp, enqueueProp]

theorem assumptions_processWatchList (nl : Int) (ids : List Nat) (st : SolverState) :
    (processWatchList st nl ids).st.assumptions = st.assumptions := by
  induction ids generalizing st with
  | nil => rfl
  | cons c cs ih =>
    unfold processWatchList
    have hpc := assumptions_processClause st nl c
    cases h : processClause st nl c with
    | next s =>
      rw [h] at hpc
      simp only [StepRes.st] at hpc
      dsimp only
      exact (ih s).trans hpc
    | confl s =>
      rw [h] at hpc
      simp only [StepRes.st] at hpc
      simpa [StepRes.st] using hpc

/-- Assumption preservation statement for a `WalkRes`. -/
theorem assumptions_walkTrail (o : Oracle) (f : Nat) (st : SolverState) (idx : Nat) :
    (walkTrail o f st idx).keeps st := by
  induction f generalizing st idx with
  | zero => trivial
  | succ n ih =>
    unfold walkTrail
    dsimp only
    split
    · exact rfl
    · generalize hq : (if idx % 1000 = 0 then checkTimeout o st else (false, st)) = q
      have hqa : q.2.assumptions = st.assumptions := by
        rw [← hq]; split <;> rfl
      split
      · exact hqa
      · have hw := assumptions_processWatchList
          (-(q.2.trail.getD idx default).literal)
          (q.2.db.getWatches (-(q.2.trail.getD idx default).literal)) q.2
        cases h : processWatchList q.2 (-(q.2.trail.getD idx default).literal)
            (q.2.db.getWatches (-(q.2.trail.getD idx default).literal)) with
        | confl s =>
          rw [h] at hw
          simp only [StepRes.st] at hw
          exact hw.trans hqa
        | next s =>
          rw [h] at hw
          simp only [StepRes.st] at hw
          dsimp only
          have hks := ih s (idx + 1)
          cases hwres : walkTrail o n s (idx + 1) <;>
            rw [hwres] at hks <;>
            simp_all [WalkRes.keeps]

/-- Assumption preservation statement for a `ScanRes`. -/
theorem assumptions_fallbackScanGo (st : SolverState) (ids : List Nat) :
    (fallbackScanGo st ids).keeps st := by
  induction ids with
  | nil => exact rfl
  | cons i rest ih =>
    unfold fallbackScanGo
    repeat' split
    all_goals first | exact ih | exact rfl

theorem assumptions_unitPropagate (o : Oracle) (f : Nat) (st : SolverState) :
    ∀ b s, unitPropagate o f st = some (b, s) → s.assumptions = st.assumptions := by
  induction f generalizing st with
  | zero => intro b s h; cases h
  | succ n ih =>
    intro b s h
    unfold unitPropagate at h
    have hw := assumptions_walkTrail o (walkFuel st) st 0
    cases hwres : walkTrail o (walkFuel st) st 0 with
    | fuelOut => rw [hwres] at h; cases h
    | timedOut s' =>
      rw [hwres] at h hw
      cases h
      exact hw
    | confl s' =>
      rw [hwres] at h hw
      cases h
      exact hw
    | reachedEnd s' =>
      rw [hwres] at h hw
      dsimp only at h
      have hs := assumptions_fallbackScanGo s' (List.range s'.db.clauses.length)
      cases hsres : fallbackScanGo s' (List.range s'.db.clauses.length) with
      | clean s'' =>
        rw [hsres] at h hs
        cases h
        exact hs.trans hw
      | confl s'' =>
        rw [hsres] at h hs
        cases h
        exact hs.trans hw
      | unitFound s'' =>
        rw [hsres] at h hs
        exact (ih s'' b s h).trans (hs.trans hw)

theorem assumptions_resolveLoop (o : Oracle) (f : Nat) :
    ∀ st acc pos t btl L s, resolveLoop o f st acc pos = some (t, btl, L, s) →
      s.assumptions = st.assumptions := by
  induction f with
  | zero => intro st acc pos t btl L s h; cases h
  | succ n ih =>
    intro st acc pos t btl L s h
    unfold resolveLoop at h
    dsimp only at h
    split at h
    · generalize hq : (if pos % 100 = 0 then checkTimeout o st else (false, st)) = q at h
      have hqa : q.2.assumptions = st.assumptions := by
        rw [← hq]; split <;> rfl
      split at h
      · cases h; exact hqa
      · split at h
        · exact (ih q.2 _ _ _ _ _ _ h).trans hqa
        · exact (ih q.2 _ _ _ _ _ _ h).trans hqa
    · cases h; rfl

theorem assumptions_analyzeConflict (o : Oracle) (f : Nat) (st : SolverState) (cid : Nat) :
    ∀ btl L s, analyzeConflict o f st cid = some (btl, L, s) →
      s.assumptions = st.assumptions := by
  intro btl L s h
  unfold analyzeConflict at h
  dsimp only at h
  cases hr : resolveLoop o f st
      ⟨match st.db.clauses.getD cid none with
        | some c => c.literals
        | none => [],
        collectCurrentLevelVars st
          (match st.db.clauses.getD cid none with
            | some c => c.literals
            | none => []),
        sortNatDesc
          ((collectCurrentLevelVars st
            (match st.db.clauses.getD cid none with
              | some c => c.literals
              | none => [])).filterMap (fun var => assocFind st.var_to_trail var)), 0⟩ 0 with
  | none => rw [hr] at h; cases h
  | some t4 =>
    rw [hr] at h
    obtain ⟨timed, btl', L', s'⟩ := t4
    have hrl := assumptions_resolveLoop o f st _ _ _ _ _ _ hr
    dsimp only at h
    split at h
    · cases h; exact hrl
    · cases h; exact hrl

theorem assumptions_redundantReasonLoop (o : Oracle) (var : Int) (seen : List Int) :
    ∀ lits st cnt,
      ((redundantReasonLoop o st var seen lits cnt).2.2).assumptions = st.assumptions := by
  intro lits
  induction lits with
  | nil => intro st cnt; rfl
  | cons rl rest ih =>
    intro st cnt
    unfold redundantReasonLoop
    dsimp only
    generalize hq : (if cnt % 50 = 0 then checkTimeout o st else (false, st)) = q
    have hqa : q.2.assumptions = st.assumptions := by
      rw [← hq]; split <;> rfl
    repeat' split
    all_goals first | exact hqa | exact (ih _ _).trans hqa

theorem assumptions_isRedundant (o : Oracle) (st : SolverState) (l : Int)
    (seen : List Int) (cnt : Nat) :
    ((isRedundant o st l seen cnt).2.2).assumptions = st.assumptions := by
  unfold isRedundant
  dsimp only
  generalize hq : (if cnt % 50 = 0 then checkTimeout o st else (false, st)) = q
  have hqa : q.2.assumptions = st.assumptions := by
    rw [← hq]; split <;> rfl
  repeat' split
  all_goals first
    | exact hqa
    | exact (assumptions_redundantReasonLoop o _ _ _ _ _).trans hqa

theorem assumptions_minimizeLoop (o : Oracle) (seen : List Int) :
    ∀ lits st minimized cnt L' cnt' s,
      minimizeLoop o st seen lits minimized cnt = some (L', cnt', s) →
      s.assumptions = st.assumptions := by
  intro lits
  induction lits with
  | nil => intro st minimized cnt L' cnt' s h; cases h; rfl
  | cons l rest ih =>
    intro st minimized cnt L' cnt' s h
    unfold minimizeLoop at h
    dsimp only at h
    generalize hq : (if cnt % 50 = 0 then checkTimeout o st else (false, st)) = q at h
    have hqa : q.2.assumptions = st.assumptions := by
      rw [← hq]; split <;> rfl
    split at h
    · cases h
    · split at h
      · exact (ih _ _ _ _ _ _ h).trans hqa
      · split at h
        · exact (ih _ _ _ _ _ _ h).trans hqa
        · split at h
          · exact (ih _ _ _ _ _ _ h).trans
              ((assumptions_isRedundant o q.2 l seen _).trans hqa)
          · exact (ih _ _ _ _ _ _ h).trans
              ((assumptions_isRedundant o q.2 l seen _).trans hqa)

theorem assumptions_minimizeClause (o : Oracle) (st : SolverState) (clause : List Int) :
    ((minimizeClause o st clause).2).assumptions = st.assumptions := by
  unfold minimizeClause
  dsimp only
  split
  · rfl
  · generalize hq : checkTimeout o st = q
    have hqa : q.2.assumptions = st.assumptions := by rw [← hq]; rfl
    split
    · exact hqa
    · split
      · exact hqa
      · have hml := assumptions_minimizeLoop o clause clause q.2 [] 0
        cases hm : minimizeLoop o q.2 clause clause [] 0 with
        | none => exact hqa
        | some t3 =>
          obtain ⟨L', cnt', s'⟩ := t3
          have := hml L' cnt' s' hm
          dsimp only
          split <;> exact this.trans hqa

theorem assumptions_selectVarVSIDS (o : Oracle) (st : SolverState) :
    ((selectVarVSIDS o st).2).assumptions = st.assumptions := by
  unfold selectVarVSIDS
  dsimp only
  repeat' split
  all_goals rfl

theorem assumptions_choosePolarity (o : Oracle) (st : SolverState) (bias : Dbl)
    (pos neg : Nat) :
    ((choosePolarity o st bias pos neg).2).assumptions = st.assumptions := by
  unfold choosePolarity
  dsimp only
  repeat' split
  all_goals rfl

theorem assumptions_makeDecision (o : Oracle) (st : SolverState) :
    ((makeDecision o st).2).assumptions = st.assumptions := by
  unfold makeDecision
  dsimp only
  split
  · exact assumptions_selectVarVSIDS o st
  · exact (assumptions_choosePolarity o _ _ _ _).trans
      (assumptions_selectVarVSIDS o st)

theorem assumptions_progressStep (pl : Bool × SolverState × Locals) (c : Bool) :
    ((progressStep pl c).2.1).assumptions = pl.2.1.assumptions := by
  unfold progressStep
  split <;> rfl

theorem assumptions_progressCheck (st : SolverState) (loc : Locals) :
    ((progressCheck st loc).2.1).assumptions = st.assumptions := by
  unfold progressCheck
  dsimp only
  repeat' split
  all_goals simp only [assumptions_progressStep]

theorem assumptions_stallHandling (st : SolverState) (loc : Locals) :
    ((stallHandling st loc).2.1).assumptions = st.assumptions := by
  unfold stallHandling
  dsimp only
  repeat' split
  all_goals
    simp only [assumptions_initVSIDS, assumptions_doRestart, assumptions_backtrack]

theorem assumptions_handleConflict (o : Oracle) (f : Nat) (st : SolverState) :
    ∀ r, handleConflict o f st = some r →
      (Sum.elim id id r).assumptions = st.assumptions := by
  intro r h
  unfold handleConflict at h
  cases ha : analyzeConflict o f st st.conflict_clause_id with
  | none => rw [ha] at h; cases h
  | some t3 =>
    rw [ha] at h
    obtain ⟨btl, L0, s1⟩ := t3
    have h1 := assumptions_analyzeConflict o f st st.conflict_clause_id _ _ _ ha
    dsimp only at h
    generalize hq : checkTimeout o s1 = q at h
    have hqa : q.2.assumptions = s1.assumptions := by rw [← hq]; rfl
    split at h
    · cases h
      simpa using hqa.trans h1
    · cases h
      simp only [Sum.elim_inr, id]
      calc ((decayVarActivities _).assumptions) = _ := by
            rw [assumptions_decayVarActivities, assumptions_foldl_bump,
              assumptions_backtrack]
      _ = st.assumptions := by
            exact (assumptions_minimizeClause o q.2 L0).trans (hqa.trans h1)

theorem assumptions_applyAssumptions (A : List Int) :
    ∀ st, (Sum.elim id id (applyAssumptions st A)).assumptions = st.assumptions := by
  induction A with
  | nil => intro st; rfl
  | cons lit rest ih =>
    intro st
    unfold applyAssumptions
    dsimp only
    split
    · split
      · rfl
      · exact ih _
    · exact ih _

theorem assumptions_solveLoop (o : Oracle) (f : Nat) :
    ∀ st loc b s, solveLoop o f st loc = some (b, s) →
      s.assumptions = st.assumptions := by
  induction f with
  | zero => intro st loc b s h; cases h
  | succ n ih =>
    intro st loc b s h
    unfold solveLoop at h
    dsimp only at h
    split at h
    · cases h; rfl
    · generalize hq : checkTimeout o st = q at h
      have hqa : q.2.assumptions = st.assumptions := by rw [← hq]; rfl
      split at h
      · cases h; exact hqa
      · generalize hpsl :
          progressCheck q.2 { loc with iterations := loc.iterations + 1 } = psl at h
        have hpa : psl.2.1.assumptions = st.assumptions := by
          rw [← hpsl]; exact (assumptions_progressCheck _ _).trans hqa
        generalize hgsl :
          (if !psl.1 then stallHandling psl.2.1 psl.2.2
           else (false, psl.2.1, psl.2.2)) = gsl at h
        have hga : gsl.2.1.assumptions = st.assumptions := by
          rw [← hgsl]
          split
          · exact (assumptions_stallHandling _ _).trans hpa
          · exact hpa
        split at h
        · cases h; exact hga
        · cases hsr : shouldRestart gsl.2.1 with
          | none => rw [hsr] at h; cases h
          | some sr =>
            rw [hsr] at h
            dsimp only at h
            generalize hst1 : (if sr then doRestart gsl.2.1 else gsl.2.1) = st1 at h
            have h1a : st1.assumptions = st.assumptions := by
              rw [← hst1]
              split
              · exact (assumptions_doRestart _).trans hga
              · exact hga
            cases hup : unitPropagate o (n + 1) st1 with
            | none => rw [hup] at h; cases h
            | some bs =>
              rw [hup] at h
              obtain ⟨ub, us⟩ := bs
              have hua : us.assumptions = st.assumptions :=
                (assumptions_unitPropagate o (n + 1) st1 ub us hup).trans h1a
              try dsimp only at h
              cases ub with
              | true =>
                try dsimp only at h
                generalize hmd : makeDecision o us = md at h
                have hma : md.2.assumptions = us.assumptions := by
                  rw [← hmd]; exact assumptions_makeDecision o us
                split at h
                · exact (ih _ _ _ _ h).trans (hma.trans hua)
                · cases h; exact hma.trans hua
              | false =>
                try dsimp only at h
                generalize hst2 : ({ us with conflicts := us.conflicts + 1, conflicts_since_restart := us.conflicts_since_restart + 1 } : SolverState) = st2 at h
                have h2a : st2.assumptions = us.assumptions := by rw [← hst2]
                split at h
                · cases hac : analyzeConflict o (n + 1) st2 us.conflict_clause_id with
                  | none => rw [hac] at h; cases h
                  | some t3 =>
                    rw [hac] at h
                    obtain ⟨bt, L, s3⟩ := t3
                    have h3 := assumptions_analyzeConflict o (n + 1) _ _ _ _ _ hac
                    try dsimp only at h
                    cases h
                    exact h3.trans (h2a.trans hua)
                · cases hhc : handleConflict o (n + 1) st2 with
                  | none => rw [hhc] at h; cases h
                  | some r =>
                    rw [hhc] at h
                    have hhca := assumptions_handleConflict o (n + 1) _ r hhc
                    cases r with
                    | inl s' =>
                      try dsimp only at h
                      cases h
                      simpa using hhca.trans (h2a.trans hua)
                    | inr s' =>
                      try dsimp only at h
                      exact (ih _ _ _ _ h).trans
                        ((by simpa using hhca : s'.assumptions = st2.assumptions).trans
                          (h2a.trans hua))

theorem assumptions_solveResetState (st : SolverState) (A : List Int) :
    (solveResetState st A).assumptions = A := by
  unfold solveResetState
  dsimp only
  split <;> rfl

theorem assumptions_solveMain (o : Oracle) (fuel : Nat) (stR : SolverState) :
    ∀ b s, solveMain o fuel stR = some (b, s) → s.assumptions = stR.assumptions := by
  intro b s h
  unfold solveMain at h
  have happk := assumptions_applyAssumptions stR.assumptions stR
  cases happ : applyAssumptions stR stR.assumptions with
  | inr s' =>
    rw [happ] at h happk
    dsimp only at h
    cases h
    simpa using happk
  | inl s' =>
    rw [happ] at h happk
    simp only [Sum.elim_inl, id] at happk
    dsimp only at h
    cases hup : unitPropagate o fuel s' with
    | none => rw [hup] at h; cases h
    | some bs =>
      rw [hup] at h
      obtain ⟨ub, us⟩ := bs
      have hua : us.assumptions = stR.assumptions :=
        (assumptions_unitPropagate o fuel s' ub us hup).trans happk
      try dsimp only at h
      cases ub with
      | true =>
        try dsimp only at h
        exact (assumptions_solveLoop o fuel _ _ _ _ h).trans hua
      | false =>
        try dsimp only at h
        generalize hst2 : ({ us with conflicts := us.conflicts + 1 } : SolverState) = st2 at h
        have h2a : st2.assumptions = us.assumptions := by rw [← hst2]
        cases hac : analyzeConflict o fuel st2 us.conflict_clause_id with
        | none => rw [hac] at h; cases h
        | some t3 =>
          rw [hac] at h
          obtain ⟨bt, L, s3⟩ := t3
          have h3 := assumptions_analyzeConflict o fuel _ _ _ _ _ hac
          try dsimp only at h
          cases h
          calc _ = s3.assumptions := by
                rw [assumptions_decayVarActivities, assumptions_foldl_bump]
          _ = stR.assumptions := h3.trans (h2a.trans hua)

theorem assumptions_solve (o : Oracle) (fuel : Nat) (st : SolverState) (A : List Int) :
    ∀ b s, solve o fuel st A = some (b, s) → s.assumptions = A := by
  intro b s h
  unfold solve at h
  cases hf : findContra A with
  | some pr =>
    rw [hf] at h
    obtain ⟨l1, l2⟩ := pr
    dsimp only at h
    cases h
    rfl
  | none =>
    rw [hf] at h
    exact (assumptions_solveMain o fuel _ b s h).trans
      (assumptions_solveResetState st A)


theorem extractCore_step (L : List Int) (trail : List TrailNode)
    (v2t : List (Int × Nat)) (acc : List Int) (a : Int) :
    (if (-a) ∈ L then
       match assocFind v2t (litVar a) with
       | none => acc
       | some ti =>
         let node := trail.getD ti default
         if node.decision_level = 0 ∧ node.is_decision then acc ++ [a] else acc
     else acc)
    = (if (decide ((-a) ∈ L) && levelZeroDecisionOnTrail trail v2t a) = true
       then acc ++ [a] else acc) := by
  unfold levelZeroDecisionOnTrail
  by_cases hmem : (-a) ∈ L
  · rw [if_pos hmem]
    cases hfind : assocFind v2t (litVar a) with
    | none => simp [hmem]
    | some ti =>
      dsimp only
      have hD : trail.getD ti default = (trail.get? ti).getD default := rfl
      cases hget : trail.get? ti with
      | none =>
        rw [hD, hget]
        simp [hmem]
      | some node =>
        rw [hD, hget]
        simp only [Option.getD_some]
        by_cases hnd : node.decision_level = 0 ∧ node.is_decision
        · simp [hmem, hnd, hnd.1, hnd.2]
        · rw [if_neg hnd]
          have hb : ¬(decide (node.decision_level = 0) && node.is_decision) = true := by
            simpa [decide_eq_true_iff] using hnd
          simp [hmem, hb]
  · simp [hmem]

theorem extractCore_go (L : List Int) (trail : List TrailNode)
    (v2t : List (Int × Nat)) :
    ∀ (A acc : List Int),
      A.foldl (fun core a =>
          if (-a) ∈ L then
            match assocFind v2t (litVar a) with
            | none => core
            | some ti =>
              let node := trail.getD ti default
              if node.decision_level = 0 ∧ node.is_decision then core ++ [a]
              else core
          else core) acc
        = acc ++ A.filter
            (fun a => decide ((-a) ∈ L) && levelZeroDecisionOnTrail trail v2t a)
  | [], acc => by simp
  | a :: A, acc => by
    rw [List.foldl_cons, List.filter_cons, extractCore_go L trail v2t A]
    rw [extractCore_step L trail v2t acc a]
    by_cases hp : (decide ((-a) ∈ L) && levelZeroDecisionOnTrail trail v2t a) = true
    · rw [if_pos hp, if_pos hp]
      simp
    · rw [if_neg hp, if_neg hp]

theorem extractCoreFrom_eq_specCore (A L : List Int) (trail : List TrailNode)
    (v2t : List (Int × Nat)) :
    extractCoreFrom A L trail v2t = specCore A L trail v2t := by
  unfold extractCoreFrom specCore
  rw [extractCore_go L trail v2t A]
  simp


theorem coreOK_of_ne (b : Bool) (s : SolverState)
    (h1 : ¬ s.exitReason = ExitReason.initialConflict)
    (h2 : ¬ s.exitReason = ExitReason.level0Conflict) : coreOK b s :=
  fun hr => (hr.elim h1 h2).elim

theorem exitReason_handleConflict_inl (o : Oracle) (f : Nat) (st s : SolverState)
    (h : handleConflict o f st = some (.inl s)) :
    s.exitReason = ExitReason.timeoutExit := by
  unfold handleConflict at h
  cases hac : analyzeConflict o f st st.conflict_clause_id with
  | none => rw [hac] at h; cases h
  | some t =>
    rw [hac] at h
    obtain ⟨btl, L0, s1⟩ := t
    dsimp only at h
    split at h
    · cases h; rfl
    · simp at h

theorem exitReason_applyAssumptions_inr :
    ∀ (A : List Int) (st s : SolverState), applyAssumptions st A = .inr s →
      s.exitReason = ExitReason.duplicateAssumption
  | [], _, s => fun h => Sum.noConfusion h
  | lit :: rest, st, s => by
    intro h
    unfold applyAssumptions at h
    dsimp only at h
    split at h
    · split at h
      · cases h; rfl
      · exact exitReason_applyAssumptions_inr rest _ s h
    · exact exitReason_applyAssumptions_inr rest _ s h

theorem coreOK_solveLoop (o : Oracle) (f : Nat) :
    ∀ st loc b s, solveLoop o f st loc = some (b, s) → coreOK b s := by
  induction f with
  | zero => intro st loc b s h; cases h
  | succ n ih =>
    intro st loc b s h
    unfold solveLoop at h
    dsimp only at h
    split at h
    · cases h; exact coreOK_of_ne _ _ (by simp) (by simp)
    · generalize hq : checkTimeout o st = q at h
      split at h
      · cases h; exact coreOK_of_ne _ _ (by simp) (by simp)
      · generalize hpsl :
          progressCheck q.2 { loc with iterations := loc.iterations + 1 } = psl at h
        generalize hgsl :
          (if !psl.1 then stallHandling psl.2.1 psl.2.2
           else (false, psl.2.1, psl.2.2)) = gsl at h
        split at h
        · cases h; exact coreOK_of_ne _ _ (by simp) (by simp)
        · cases hsr : shouldRestart gsl.2.1 with
          | none => rw [hsr] at h; cases h
          | some sr =>
            rw [hsr] at h
            dsimp only at h
            generalize hst1 : (if sr then doRestart gsl.2.1 else gsl.2.1) = st1 at h
            cases hup : unitPropagate o (n + 1) st1 with
            | none => rw [hup] at h; cases h
            | some bs =>
              rw [hup] at h
              obtain ⟨ub, us⟩ := bs
              try dsimp only at h
              cases ub with
              | true =>
                try dsimp only at h
                split at h
                · exact ih _ _ _ _ h
                · cases h; exact coreOK_of_ne _ _ (by simp) (by simp)
              | false =>
                try dsimp only at h
                generalize hst2 : ({ us with conflicts := us.conflicts + 1, conflicts_since_restart := us.conflicts_since_restart + 1 } : SolverState) = st2 at h
                split at h
                · cases hac : analyzeConflict o (n + 1) st2 us.conflict_clause_id with
                  | none => rw [hac] at h; cases h
                  | some t3 =>
                    rw [hac] at h
                    obtain ⟨bt, L, s3⟩ := t3
                    try dsimp only at h
                    cases h
                    exact fun _ => ⟨rfl, rfl⟩
                · cases hhc : handleConflict o (n + 1) st2 with
                  | none => rw [hhc] at h; cases h
                  | some r =>
                    rw [hhc] at h
                    cases r with
                    | inl s' =>
                      try dsimp only at h
                      cases h
                      have he := exitReason_handleConflict_inl o (n + 1) st2 _ hhc
                      exact coreOK_of_ne _ _ (by rw [he]; simp) (by rw [he]; simp)
                    | inr s' =>
                      try dsimp only at h
                      exact ih _ _ _ _ h

theorem coreOK_solveMain (o : Oracle) (fuel : Nat) (stR : SolverState) :
    ∀ b s, solveMain o fuel stR = some (b, s) → coreOK b s := by
  intro b s h
  unfold solveMain at h
  cases happ : applyAssumptions stR stR.assumptions with
  | inr s1 =>
    rw [happ] at h
    dsimp only at h
    cases h
    have he := exitReason_applyAssumptions_inr stR.assumptions stR _ happ
    exact coreOK_of_ne _ _ (by rw [he]; simp) (by rw [he]; simp)
  | inl s1 =>
    rw [happ] at h
    dsimp only at h
    cases hup : unitPropagate o fuel s1 with
    | none => rw [hup] at h; cases h
    | some bs =>
      rw [hup] at h
      obtain ⟨ub, us⟩ := bs
      try dsimp only at h
      cases ub with
      | true =>
        try dsimp only at h
        exact coreOK_solveLoop o fuel _ _ _ _ h
      | false =>
        try dsimp only at h
        generalize hst2 : ({ us with conflicts := us.conflicts + 1 } : SolverState) = st2 at h
        cases hac : analyzeConflict o fuel st2 us.conflict_clause_id with
        | none => rw [hac] at h; cases h
        | some t3 =>
          rw [hac] at h
          obtain ⟨bt, L, s3⟩ := t3
          try dsimp only at h
          cases h
          exact fun _ => ⟨rfl, rfl⟩

theorem coreOK_solve (o : Oracle) (fuel : Nat) (st : SolverState) (A : List Int) :
    ∀ b s, solve o fuel st A = some (b, s) → coreOK b s := by
  intro b s h
  unfold solve at h
  cases hf : findContra A with
  | some pr =>
    rw [hf] at h
    obtain ⟨l1, l2⟩ := pr
    dsimp only at h
    cases h
    exact coreOK_of_ne _ _ (by simp) (by simp)
  | none =>
    rw [hf] at h
    exact coreOK_solveMain o fuel _ b s h


/-- C5: UNSAT-core extraction.  Whenever `solve` concludes UNSAT via a
conflict (initial-propagation conflict or conflict at decision level 0),
the returned core equals the spec's set
`{ a ∈ assumptions : -a ∈ L, a is a level-0 decision on the trail }`
for `L` the final learned clause of that conflict, and in particular is
a subset of the caller's assumption list. -/
theorem solve_conflict_core_is_assumption_filter
    (o : Oracle) (fuel : Nat) (st : SolverState) (A : List Int)
    (b : Bool) (s : SolverState)
    (h : solve o fuel st A = some (b, s))
    (hr : s.exitReason = ExitReason.initialConflict ∨
          s.exitReason = ExitReason.level0Conflict) :
    b = false ∧
      s.core = specCore A s.lastLearned s.trail s.var_to_trail ∧
      s.core ⊆ A := by
  obtain ⟨hb, hc⟩ := coreOK_solve o fuel st A b s h hr
  have ha := assumptions_solve o fuel st A b s h
  refine ⟨hb, ?_, ?_⟩
  · rw [hc, ha, extractCoreFrom_eq_specCore]
  · rw [hc, ha, extractCoreFrom_eq_specCore]
    unfold specCore
    exact fun x hx => (List.mem_filter.mp hx).1

theorem solve_conflict_core_is_assumption_filter_witness :
    (match solve quietOracle 100 (mkSolver [[-1, -2]]) [1, 2] with
     | some r =>
         r.1 = false ∧
           r.2.core = specCore [1, 2] r.2.lastLearned r.2.trail r.2.var_to_trail ∧
           r.2.core ⊆ [1, 2]
     | none => False) := by
  have hS : (solve quietOracle 100 (mkSolver [[-1, -2]]) [1, 2]).isSome = true := by
    decide
  have hE : (solve quietOracle 100 (mkSolver [[-1, -2]]) [1, 2]).map
      (fun r => r.2.exitReason) = some ExitReason.initialConflict := by decide
  cases h : solve quietOracle 100 (mkSolver [[-1, -2]]) [1, 2] with
  | none => rw [h] at hS; cases hS
  | some p =>
    obtain ⟨b, s⟩ := p
    rw [h] at hE
    simp only [Option.map_some', Option.some.injEq] at hE
    try dsimp only
    exact solve_conflict_core_is_assumption_filter quietOracle 100
      (mkSolver [[-1, -2]]) [1, 2] b s h (Or.inl hE)


theorem getD_set_self (w : List (List Nat)) (b : Nat) (x : List Nat)
    (hb : b < w.length) : (w.set b x).getD b [] = x := by
  simp [List.getD_eq_getElem?_getD, List.getElem?_set, hb]

theorem getD_set_other (w : List (List Nat)) (b b' : Nat) (x : List Nat)
    (h : b' ≠ b) : (w.set b x).getD b' [] = w.getD b' [] := by
  simp [List.getD_eq_getElem?_getD, List.getElem?_set, Ne.symm h]

theorem getD_pushWatch_self (w : List (List Nat)) (b : Nat) (id : Nat)
    (hb : b < w.length) : (pushWatch w b id).getD b [] = w.getD b [] ++ [id] :=
  getD_set_self w b _ hb

theorem getD_pushWatch_other (w : List (List Nat)) (b b' : Nat) (id : Nat)
    (h : b' ≠ b) : (pushWatch w b id).getD b' [] = w.getD b' [] :=
  getD_set_other w b b' _ h

theorem getD_dropWatch_self (w : List (List Nat)) (b : Nat) (id : Nat) :
    (dropWatch w b id).getD b [] = (w.getD b []).filter (fun x => x ≠ id) := by
  by_cases hb : b < w.length
  · exact getD_set_self w b _ hb
  · unfold dropWatch
    rw [List.set_eq_of_length_le (by omega)]
    have : w.getD b [] = [] := by
      simp [List.getD_eq_getElem?_getD, List.getElem?_eq_none (by omega : w.length ≤ b)]
    rw [this]
    rfl

theorem getD_dropWatch_other (w : List (List Nat)) (b b' : Nat) (id : Nat)
    (h : b' ≠ b) : (dropWatch w b id).getD b' [] = w.getD b' [] :=
  getD_set_other w b b' _ h


theorem bucketIdx_le (nv : Nat) (l : Int) (h : legalLit nv l) :
    bucketIdx nv l ≤ 2 * nv := by
  obtain ⟨h0, hle⟩ := h
  unfold bucketIdx
  split <;> omega

theorem bucketIdx_inj (nv : Nat) (l l' : Int) (hl : legalLit nv l)
    (hl' : legalLit nv l') (h : bucketIdx nv l = bucketIdx nv l') : l = l' := by
  obtain ⟨h0, hle⟩ := hl
  obtain ⟨h0', hle'⟩ := hl'
  unfold bucketIdx at h
  split at h <;> split at h <;> omega

theorem mem_pushWatch_iff (w : List (List Nat)) (b bq id cid : Nat)
    (hb : b < w.length) :
    cid ∈ (pushWatch w b id).getD bq [] ↔
      cid ∈ w.getD bq [] ∨ (bq = b ∧ cid = id) := by
  by_cases h : bq = b
  · subst h
    rw [getD_pushWatch_self _ _ _ hb]
    simp
  · rw [getD_pushWatch_other _ _ _ _ h]
    simp [h]

theorem mem_dropWatch_iff (w : List (List Nat)) (b bq id cid : Nat) :
    cid ∈ (dropWatch w b id).getD bq [] ↔
      cid ∈ w.getD bq [] ∧ ¬(bq = b ∧ cid = id) := by
  by_cases h : bq = b
  · subst h
    rw [getD_dropWatch_self]
    simp [List.mem_filter]
  · rw [getD_dropWatch_other _ _ _ _ h]
    simp [h]

theorem length_pushWatch (w : List (List Nat)) (b id : Nat) :
    (pushWatch w b id).length = w.length := by
  unfold pushWatch; simp

theorem length_dropWatch (w : List (List Nat)) (b id : Nat) :
    (dropWatch w b id).length = w.length := by
  unfold dropWatch; simp

theorem getD_concat (C : List (Option ClauseInfo)) (x : Option ClauseInfo) (i : Nat) :
    (C ++ [x]).getD i none
      = if i < C.length then C.getD i none
        else if i = C.length then x else none := by
  rcases lt_trichotomy i C.length with h | h | h
  · rw [if_pos h]
    simp [List.getD_eq_getElem?_getD, List.getElem?_append_left h]
  · subst h
    rw [if_neg (by omega), if_pos rfl]
    simp [List.getD_eq_getElem?_getD, List.getElem?_concat_length]
  · rw [if_neg (by omega), if_neg (by omega)]
    have : (C ++ [x]).length ≤ i := by simp; omega
    simp [List.getD_eq_getElem?_getD, List.getElem?_eq_none this]

theorem lt_of_getD_eq_some (C : List (Option ClauseInfo)) (i : Nat)
    (c : ClauseInfo) (h : C.getD i none = some c) : i < C.length := by
  by_contra hge
  rw [List.getD_eq_getElem?_getD, List.getElem?_eq_none (by omega)] at h
  cases h

theorem getD_set_none_self (C : List (Option ClauseInfo)) (i : Nat)
    (hi : i < C.length) : (C.set i none).getD i none = none := by
  simp [List.getD_eq_getElem?_getD, List.getElem?_set, hi]

theorem getD_set_clause_other (C : List (Option ClauseInfo)) (i j : Nat)
    (x : Option ClauseInfo) (h : j ≠ i) :
    (C.set i x).getD j none = C.getD j none := by
  simp [List.getD_eq_getElem?_getD, List.getElem?_set, Ne.symm h]

theorem getD_set_clause_self (C : List (Option ClauseInfo)) (i : Nat)
    (x : Option ClauseInfo) (hi : i < C.length) :
    (C.set i x).getD i none = x := by
  simp [List.getD_eq_getElem?_getD, List.getElem?_set, hi]


theorem watchConsistent_mk (nv : Nat) : watchConsistent (mkClauseDatabase nv) := by
  constructor
  · simp [mkClauseDatabase]
  · intro l hl cid
    constructor
    · intro hmem
      exfalso
      have hE : (mkClauseDatabase nv).getWatches l = [] := by
        unfold ClauseDatabase.getWatches mkClauseDatabase
        simp only [List.getD_eq_getElem?_getD, List.getElem?_replicate]
        split <;> rfl
      rw [hE] at hmem
      cases hmem
    · rintro ⟨c, hc, -⟩
      simp [mkClauseDatabase] at hc

theorem watchConsistent_addClause (db : ClauseDatabase) (clause : List Int)
    (lrn : Bool) (hw : watchConsistent db)
    (hlits : ∀ l ∈ clause.take 2, legalLit db.num_variables l) :
    watchConsistent (db.addClause clause lrn).2 := by
  obtain ⟨hlen, hiff⟩ := hw
  rcases clause with _ | ⟨l1, _ | ⟨l2, rest⟩⟩
  · unfold ClauseDatabase.addClause
    dsimp only
    split
    all_goals {
      constructor
      · exact hlen
      · intro l hl cid
        unfold ClauseDatabase.getWatches
        try dsimp only
        have hmem := hiff l hl cid
        unfold ClauseDatabase.getWatches at hmem
        rw [hmem, getD_concat]
        constructor
        · rintro ⟨c, hc, hpc⟩
          have := lt_of_getD_eq_some _ _ _ hc
          exact ⟨c, by rw [if_pos this]; exact hc, hpc⟩
        · rintro ⟨c, hc, hpc⟩
          split at hc
          · exact ⟨c, hc, hpc⟩
          · split at hc
            · cases hc
              dsimp only [mkClauseInfo] at hpc
              rcases hpc with h | h <;> exact absurd h.symm hl.1
            · cases hc }
  · have hl1 : legalLit db.num_variables l1 := hlits l1 (by simp)
    have hb1 : bucketIdx db.num_variables l1 < db.watches.length := by
      rw [hlen]; have := bucketIdx_le _ _ hl1; omega
    unfold ClauseDatabase.addClause
    dsimp only
    split
    all_goals {
      constructor
      · simpa [length_pushWatch] using hlen
      · intro l hl cid
        unfold ClauseDatabase.getWatches
        try dsimp only
        have hmem := hiff l hl cid
        unfold ClauseDatabase.getWatches at hmem
        rw [mem_pushWatch_iff _ _ _ _ _ hb1]
        rw [hmem, getD_concat]
        constructor
        · rintro (⟨c, hc, hpc⟩ | ⟨hb, hcid⟩)
          · have := lt_of_getD_eq_some _ _ _ hc
            exact ⟨c, by rw [if_pos this]; exact hc, hpc⟩
          · refine ⟨_, by rw [if_neg (by omega), if_pos hcid], ?_⟩
            left
            exact (bucketIdx_inj _ _ _ hl1 hl hb.symm)
        · rintro ⟨c, hc, hpc⟩
          split at hc
          · exact Or.inl ⟨c, hc, hpc⟩
          · split at hc
            · cases hc
              dsimp only [mkClauseInfo] at hpc
              rcases hpc with h | h
              · exact Or.inr ⟨by rw [h], by assumption⟩
              · exact absurd h.symm hl.1
            · cases hc }
  · have hl1 : legalLit db.num_variables l1 := hlits l1 (by simp)
    have hl2 : legalLit db.num_variables l2 := hlits l2 (by simp)
    have hb1 : bucketIdx db.num_variables l1 < db.watches.length := by
      rw [hlen]; have := bucketIdx_le _ _ hl1; omega
    have hb2 : bucketIdx db.num_variables l2 <
        (pushWatch db.watches (bucketIdx db.num_variables l1) db.clauses.length).length := by
      rw [length_pushWatch, hlen]; have := bucketIdx_le _ _ hl2; omega
    unfold ClauseDatabase.addClause
    dsimp only
    split
    all_goals {
      constructor
      · simpa [length_pushWatch] using hlen
      · intro l hl cid
        unfold ClauseDatabase.getWatches
        try dsimp only
        have hmem := hiff l hl cid
        unfold ClauseDatabase.getWatches at hmem
        rw [mem_pushWatch_iff _ _ _ _ _ hb2]
        rw [mem_pushWatch_iff _ _ _ _ _ hb1]
        rw [hmem, getD_concat]
        constructor
        · rintro ((⟨c, hc, hpc⟩ | ⟨hb, hcid⟩) | ⟨hb, hcid⟩)
          · have := lt_of_getD_eq_some _ _ _ hc
            exact ⟨c, by rw [if_pos this]; exact hc, hpc⟩
          · refine ⟨_, by rw [if_neg (by omega), if_pos hcid], ?_⟩
            left
            exact (bucketIdx_inj _ _ _ hl1 hl hb.symm)
          · refine ⟨_, by rw [if_neg (by omega), if_pos hcid], ?_⟩
            right
            exact (bucketIdx_inj _ _ _ hl2 hl hb.symm)
        · rintro ⟨c, hc, hpc⟩
          split at hc
          · exact Or.inl (Or.inl ⟨c, hc, hpc⟩)
          · split at hc
            · cases hc
              dsimp only [mkClauseInfo] at hpc
              rcases hpc with h | h
              · exact Or.inl (Or.inr ⟨by rw [h], by assumption⟩)
              · exact Or.inr ⟨by rw [h], by assumption⟩
            · cases hc }


theorem watchConsistent_updateWatches (db : ClauseDatabase) (id : Nat)
    (old_lit new_lit : Int) (c : ClauseInfo) (hw : watchConsistent db)
    (hc : db.clauses.getD id none = some c)
    (hold : legalLit db.num_variables old_lit)
    (hnew : legalLit db.num_variables new_lit)
    (hpair : (c.watched_lits.1 = old_lit ∧ c.watched_lits.2 ≠ old_lit) ∨
             (c.watched_lits.1 ≠ old_lit ∧ c.watched_lits.2 = old_lit)) :
    watchConsistent (db.updateWatches id old_lit new_lit) := by
  obtain ⟨hlen, hiff⟩ := hw
  have hid : id < db.clauses.length := lt_of_getD_eq_some _ _ _ hc
  have hbn : bucketIdx db.num_variables new_lit <
      (dropWatch db.watches (bucketIdx db.num_variables old_lit) id).length := by
    rw [length_dropWatch, hlen]; have := bucketIdx_le _ _ hnew; omega
  unfold ClauseDatabase.updateWatches
  rw [hc]
  dsimp only
  constructor
  · simp only [length_pushWatch, length_dropWatch]
    exact hlen
  · intro l hl cid
    unfold ClauseDatabase.getWatches
    dsimp only
    have hmem := hiff l hl cid
    unfold ClauseDatabase.getWatches at hmem
    rw [mem_pushWatch_iff _ _ _ _ _ hbn]
    rw [mem_dropWatch_iff]
    rw [hmem]
    by_cases hcid : cid = id
    · subst hcid
      rw [getD_set_clause_self _ _ _ hid]
      constructor
      · rintro (⟨hin, hnot⟩ | ⟨hb, -⟩)
        · obtain ⟨c2, hc2, hpc2⟩ := hin
          rw [hc] at hc2
          cases hc2
          have hlne : l ≠ old_lit := fun heq => hnot ⟨by rw [heq], rfl⟩
          refine ⟨_, rfl, ?_⟩
          rcases hpair with ⟨h1, h2⟩ | ⟨h1, h2⟩
          · rw [if_pos h1]
            rcases hpc2 with h | h
            · exact absurd (by rw [← h]; exact h1) hlne
            · right
              dsimp only
              exact h
          · rw [if_neg h1, if_pos h2]
            rcases hpc2 with h | h
            · left
              dsimp only
              exact h
            · exact absurd (by rw [← h]; exact h2) hlne
        · have hlnew : l = new_lit := bucketIdx_inj _ _ _ hl hnew hb
          refine ⟨_, rfl, ?_⟩
          rcases hpair with ⟨h1, h2⟩ | ⟨h1, h2⟩
          · rw [if_pos h1]
            left
            dsimp only
            exact hlnew.symm
          · rw [if_neg h1, if_pos h2]
            right
            dsimp only
            exact hlnew.symm
      · rintro ⟨c2, hc2, hpc2⟩
        cases hc2
        by_cases hbq : bucketIdx db.num_variables l = bucketIdx db.num_variables new_lit
        · exact Or.inr ⟨hbq, rfl⟩
        · left
          have hlnew : l ≠ new_lit := fun heq => hbq (by rw [heq])
          rcases hpair with ⟨h1, h2⟩ | ⟨h1, h2⟩
          · rw [if_pos h1] at hpc2
            dsimp only at hpc2
            rcases hpc2 with h | h
            · exact absurd h.symm hlnew
            · constructor
              · exact ⟨c, by rw [hc], Or.inr h⟩
              · rintro ⟨hb, -⟩
                exact h2 (h.trans (bucketIdx_inj _ _ _ hl hold hb))
          · rw [if_neg h1, if_pos h2] at hpc2
            dsimp only at hpc2
            rcases hpc2 with h | h
            · constructor
              · exact ⟨c, by rw [hc], Or.inl h⟩
              · rintro ⟨hb, -⟩
                exact h1 (h.trans (bucketIdx_inj _ _ _ hl hold hb))
            · exact absurd h.symm hlnew
    · rw [getD_set_clause_other _ _ _ _ hcid]
      constructor
      · rintro (⟨hin, -⟩ | ⟨-, hcc⟩)
        · exact hin
        · exact absurd hcc hcid
      · intro hin
        left
        exact ⟨hin, fun hx => hcid hx.2⟩


theorem watchConsistent_removeClause (db : ClauseDatabase) (id : Nat)
    (hw : watchConsistent db)
    (hwf : ∀ c, db.clauses.getD id none = some c →
      (c.literals.length ≥ 2 →
        legalLit db.num_variables c.watched_lits.1 ∧
        legalLit db.num_variables c.watched_lits.2) ∧
      (c.literals.length = 1 →
        c.watched_lits = (c.literals.getD 0 0, 0) ∧
        legalLit db.num_variables (c.literals.getD 0 0)) ∧
      (c.literals.length = 0 → c.watched_lits = (0, 0))) :
    watchConsistent (db.removeClause id) := by
  obtain ⟨hlen, hiff⟩ := hw
  unfold ClauseDatabase.removeClause
  cases hc : db.clauses.getD id none with
  | none => exact ⟨hlen, hiff⟩
  | some c =>
    have hid : id < db.clauses.length := lt_of_getD_eq_some _ _ _ hc
    dsimp only
    by_cases h2 : c.literals.length ≥ 2
    · rw [if_pos h2]
      obtain ⟨hp1, hp2⟩ := (hwf c hc).1 h2
      split
      all_goals {
        constructor
        · simp only [length_dropWatch]
          exact hlen
        · intro l hl cid
          unfold ClauseDatabase.getWatches
          dsimp only
          have hmem := hiff l hl cid
          unfold ClauseDatabase.getWatches at hmem
          rw [mem_dropWatch_iff, mem_dropWatch_iff, hmem]
          by_cases hcid : cid = id
          · subst hcid
            rw [getD_set_none_self _ _ hid]
            constructor
            · rintro ⟨⟨hin, hn1⟩, hn2⟩
              exfalso
              obtain ⟨c2, hc2, hpc2⟩ := hin
              rw [hc] at hc2
              cases hc2
              rcases hpc2 with h | h
              · exact hn1 ⟨by rw [← h], rfl⟩
              · exact hn2 ⟨by rw [← h], rfl⟩
            · rintro ⟨c2, hc2, -⟩
              cases hc2
          · rw [getD_set_clause_other _ _ _ _ hcid]
            constructor
            · rintro ⟨⟨hin, -⟩, -⟩
              exact hin
            · intro hin
              exact ⟨⟨hin, fun hx => hcid hx.2⟩, fun hx => hcid hx.2⟩ }
    · rw [if_neg h2]
      by_cases h1 : c.literals.length = 1
      · rw [if_pos h1]
        obtain ⟨hpq, hpu⟩ := (hwf c hc).2.1 h1
        split
        all_goals {
          constructor
          · simp only [length_dropWatch]
            exact hlen
          · intro l hl cid
            unfold ClauseDatabase.getWatches
            dsimp only
            have hmem := hiff l hl cid
            unfold ClauseDatabase.getWatches at hmem
            rw [mem_dropWatch_iff, hmem]
            by_cases hcid : cid = id
            · subst hcid
              rw [getD_set_none_self _ _ hid]
              constructor
              · rintro ⟨hin, hn⟩
                exfalso
                obtain ⟨c2, hc2, hpc2⟩ := hin
                rw [hc] at hc2
                cases hc2
                rw [hpq] at hpc2
                rcases hpc2 with h | h
                · exact hn ⟨by rw [← h], rfl⟩
                · exact hl.1 h.symm
              · rintro ⟨c2, hc2, -⟩
                cases hc2
            · rw [getD_set_clause_other _ _ _ _ hcid]
              constructor
              · rintro ⟨hin, -⟩
                exact hin
              · intro hin
                exact ⟨hin, fun hx => hcid hx.2⟩ }
      · rw [if_neg h1]
        have h0 : c.literals.length = 0 := by omega
        have hpq := (hwf c hc).2.2 h0
        split
        all_goals {
          constructor
          · exact hlen
          · intro l hl cid
            unfold ClauseDatabase.getWatches
            dsimp only
            have hmem := hiff l hl cid
            unfold ClauseDatabase.getWatches at hmem
            rw [hmem]
            by_cases hcid : cid = id
            · subst hcid
              rw [getD_set_none_self _ _ hid]
              constructor
              · rintro ⟨c2, hc2, hpc2⟩
                exfalso
                rw [hc] at hc2
                cases hc2
                rw [hpq] at hpc2
                rcases hpc2 with h | h <;> exact hl.1 h.symm
              · rintro ⟨c2, hc2, -⟩
                cases hc2
            · rw [getD_set_clause_other _ _ _ _ hcid] }


theorem getD_map_const_nil (w : List (List Nat)) (i : Nat) :
    (w.map (fun _ => ([] : List Nat))).getD i [] = [] := by
  rw [List.getD_eq_getElem?_getD, List.getElem?_map]
  cases w[i]? <;> rfl

theorem getD_out_of_range (C : List (Option ClauseInfo)) (i : Nat)
    (h : C.length ≤ i) : C.getD i none = none := by
  rw [List.getD_eq_getElem?_getD, List.getElem?_eq_none h]
  rfl

theorem initFold_inv (nv : Nat) (C : List (Option ClauseInfo))
    (W0 : List (List Nat))
    (hW0len : W0.length = 2 * nv + 1)
    (hW0 : ∀ i, W0.getD i [] = ([] : List Nat))
    (hlits : ∀ cid c, C.getD cid none = some c →
      ∀ l ∈ c.literals.take 2, legalLit nv l)
    (hempty : ∀ cid c, C.getD cid none = some c →
      c.literals = [] → c.watched_lits = (0, 0)) :
    ∀ k,
      ((List.range k).foldl (initWatchOne nv) (W0, C)).1.length = 2 * nv + 1 ∧
      ((List.range k).foldl (initWatchOne nv) (W0, C)).2.length = C.length ∧
      (∀ i, k ≤ i →
        ((List.range k).foldl (initWatchOne nv) (W0, C)).2.getD i none
          = C.getD i none) ∧
      (∀ i, i < k →
        ((List.range k).foldl (initWatchOne nv) (W0, C)).2.getD i none
          = (C.getD i none).map
              (fun c => { c with watched_lits := newWatchedPair c })) ∧
      (∀ l, legalLit nv l → ∀ cid,
        cid ∈ ((List.range k).foldl (initWatchOne nv) (W0, C)).1.getD
            (bucketIdx nv l) [] ↔
          (cid < k ∧ ∃ c, C.getD cid none = some c ∧
            ((newWatchedPair c).1 = l ∨ (newWatchedPair c).2 = l))) := by
  intro k
  induction k with
  | zero =>
    refine ⟨hW0len, rfl, fun i _ => rfl, fun i hi => absurd hi (by omega), ?_⟩
    intro l hl cid
    simp only [List.range_zero, List.foldl_nil]
    rw [hW0]
    simp
  | succ k ih =>
    obtain ⟨h1, h2, h3, h4, h5⟩ := ih
    simp only [List.range_succ, List.foldl_append, List.foldl_cons,
      List.foldl_nil] at *
    generalize hP : (List.range k).foldl (initWatchOne nv) (W0, C) = P at *
    obtain ⟨w, cs⟩ := P
    dsimp only at h1 h2 h3 h4 h5 ⊢
    cases hck : cs.getD k none with
    | none =>
      have hCk : C.getD k none = none := by rw [← h3 k le_rfl]; exact hck
      have hstep : initWatchOne nv (w, cs) k = (w, cs) := by
        unfold initWatchOne
        dsimp only
        rw [hck]
      rw [hstep]
      refine ⟨h1, h2, fun i hi => h3 i (by omega), ?_, ?_⟩
      · intro i hi
        rcases Nat.lt_succ_iff_lt_or_eq.mp hi with h | h
        · exact h4 i h
        · subst h
          rw [hck, hCk]
          rfl
      · intro l hl cid
        rw [h5 l hl cid]
        constructor
        · rintro ⟨hlt, hE⟩
          exact ⟨by omega, hE⟩
        · rintro ⟨hlt, hE⟩
          refine ⟨?_, hE⟩
          rcases Nat.lt_succ_iff_lt_or_eq.mp hlt with h | h
          · exact h
          · subst h
            obtain ⟨c2, hc2, -⟩ := hE
            rw [hCk] at hc2
            cases hc2
    | some c =>
      have hCk : C.getD k none = some c := by rw [← h3 k le_rfl]; exact hck
      have hkC : k < C.length := lt_of_getD_eq_some _ _ _ hCk
      have hkcs : k < cs.length := by omega
      cases hcl : c.literals with
      | nil =>
        have hnp : newWatchedPair c = c.watched_lits := by
          unfold newWatchedPair
          rw [hcl]
        have hstep : initWatchOne nv (w, cs) k = (w, cs) := by
          unfold initWatchOne
          dsimp only
          rw [hck]
          dsimp only
          rw [hcl]
        rw [hstep]
        refine ⟨h1, h2, fun i hi => h3 i (by omega), ?_, ?_⟩
        · intro i hi
          rcases Nat.lt_succ_iff_lt_or_eq.mp hi with h | h
          · exact h4 i h
          · subst h
            rw [hck, hCk]
            simp only [Option.map_some']
            rw [hnp]
        · intro l hl cid
          rw [h5 l hl cid]
          constructor
          · rintro ⟨hlt, hE⟩
            exact ⟨by omega, hE⟩
          · rintro ⟨hlt, hE⟩
            refine ⟨?_, hE⟩
            rcases Nat.lt_succ_iff_lt_or_eq.mp hlt with h | h
            · exact h
            · subst h
              exfalso
              obtain ⟨c2, hc2, hpc⟩ := hE
              rw [hCk] at hc2
              cases hc2
              rw [hnp, hempty _ c hCk hcl] at hpc
              rcases hpc with h | h <;> exact hl.1 h.symm
      | cons l1 rest =>
        cases rest with
        | nil =>
          have hl1 : legalLit nv l1 := hlits k c hCk l1 (by rw [hcl]; simp)
          have hb1 : bucketIdx nv l1 < w.length := by
            rw [h1]
            have := bucketIdx_le _ _ hl1
            omega
          have hnp : newWatchedPair c = (l1, 0) := by
            unfold newWatchedPair
            rw [hcl]
          have hstep : initWatchOne nv (w, cs) k =
              (pushWatch w (bucketIdx nv l1) k,
               cs.set k (some { c with watched_lits := (l1, 0) })) := by
            unfold initWatchOne
            dsimp only
            rw [hck]
            dsimp only
            rw [hcl]
          rw [hstep]
          refine ⟨?_, ?_, ?_, ?_, ?_⟩
          · rw [length_pushWatch]
            exact h1
          · simpa using h2
          · intro i hi
            rw [getD_set_clause_other _ _ _ _ (by omega)]
            exact h3 i (by omega)
          · intro i hi
            rcases Nat.lt_succ_iff_lt_or_eq.mp hi with h | h
            · rw [getD_set_clause_other _ _ _ _ (by omega)]
              exact h4 i h
            · subst h
              rw [getD_set_clause_self _ _ _ hkcs, hCk]
              simp only [Option.map_some']
              rw [hnp]
          · intro l hl cid
            rw [mem_pushWatch_iff _ _ _ _ _ hb1, h5 l hl cid]
            constructor
            · rintro (⟨hlt, hE⟩ | ⟨hb, hcid⟩)
              · exact ⟨by omega, hE⟩
              · subst hcid
                refine ⟨by omega, c, hCk, ?_⟩
                left
                rw [hnp]
                exact (bucketIdx_inj _ _ _ hl1 hl hb.symm)
            · rintro ⟨hlt, hE⟩
              rcases Nat.lt_succ_iff_lt_or_eq.mp hlt with h | h
              · exact Or.inl ⟨h, hE⟩
              · subst h
                right
                obtain ⟨c2, hc2, hpc⟩ := hE
                rw [hCk] at hc2
                cases hc2
                rw [hnp] at hpc
                rcases hpc with h | h
                · exact ⟨by rw [← h], rfl⟩
                · exact absurd h.symm hl.1
        | cons l2 rest2 =>
          have hl1 : legalLit nv l1 := hlits k c hCk l1 (by rw [hcl]; simp)
          have hl2 : legalLit nv l2 := hlits k c hCk l2 (by rw [hcl]; simp)
          have hb1 : bucketIdx nv l1 < w.length := by
            rw [h1]
            have := bucketIdx_le _ _ hl1
            omega
          have hb2 : bucketIdx nv l2 <
              (pushWatch w (bucketIdx nv l1) k).length := by
            rw [length_pushWatch, h1]
            have := bucketIdx_le _ _ hl2
            omega
          have hnp : newWatchedPair c = (l1, l2) := by
            unfold newWatchedPair
            rw [hcl]
          have hstep : initWatchOne nv (w, cs) k =
              (pushWatch (pushWatch w (bucketIdx nv l1) k) (bucketIdx nv l2) k,
               cs.set k (some { c with watched_lits := (l1, l2) })) := by
            unfold initWatchOne
            dsimp only
            rw [hck]
            dsimp only
            rw [hcl]
          rw [hstep]
          refine ⟨?_, ?_, ?_, ?_, ?_⟩
          · rw [length_pushWatch, length_pushWatch]
            exact h1
          · simpa using h2
          · intro i hi
            rw [getD_set_clause_other _ _ _ _ (by omega)]
            exact h3 i (by omega)
          · intro i hi
            rcases Nat.lt_succ_iff_lt_or_eq.mp hi with h | h
            · rw [getD_set_clause_other _ _ _ _ (by omega)]
              exact h4 i h
            · subst h
              rw [getD_set_clause_self _ _ _ hkcs, hCk]
              simp only [Option.map_some']
              rw [hnp]
          · intro l hl cid
            rw [mem_pushWatch_iff _ _ _ _ _ hb2]
            rw [mem_pushWatch_iff _ _ _ _ _ hb1]
            rw [h5 l hl cid]
            constructor
            · rintro ((⟨hlt, hE⟩ | ⟨hb, hcid⟩) | ⟨hb, hcid⟩)
              · exact ⟨by omega, hE⟩
              · subst hcid
                refine ⟨by omega, c, hCk, ?_⟩
                left
                rw [hnp]
                exact (bucketIdx_inj _ _ _ hl1 hl hb.symm)
              · subst hcid
                refine ⟨by omega, c, hCk, ?_⟩
                right
                rw [hnp]
                exact (bucketIdx_inj _ _ _ hl2 hl hb.symm)
            · rintro ⟨hlt, hE⟩
              rcases Nat.lt_succ_iff_lt_or_eq.mp hlt with h | h
              · exact Or.inl (Or.inl ⟨h, hE⟩)
              · subst h
                obtain ⟨c2, hc2, hpc⟩ := hE
                rw [hCk] at hc2
                cases hc2
                rw [hnp] at hpc
                rcases hpc with h | h
                · exact Or.inl (Or.inr ⟨by rw [← h], rfl⟩)
                · exact Or.inr ⟨by rw [← h], rfl⟩


theorem watchConsistent_initWatches (db : ClauseDatabase)
    (hlen : db.watches.length = 2 * db.num_variables + 1)
    (hlits : ∀ cid c, db.clauses.getD cid none = some c →
      ∀ l ∈ c.literals.take 2, legalLit db.num_variables l)
    (hempty : ∀ cid c, db.clauses.getD cid none = some c →
      c.literals = [] → c.watched_lits = (0, 0)) :
    watchConsistent db.initWatches := by
  have hW0len : (db.watches.map (fun _ => ([] : List Nat))).length
      = 2 * db.num_variables + 1 := by
    simpa using hlen
  have hinv := initFold_inv db.num_variables db.clauses _ hW0len
    (getD_map_const_nil db.watches) hlits hempty db.clauses.length
  obtain ⟨h1, h2, h3, h4, h5⟩ := hinv
  unfold ClauseDatabase.initWatches
  dsimp only
  generalize hP : (List.range db.clauses.length).foldl
      (initWatchOne db.num_variables)
      (db.watches.map (fun _ => ([] : List Nat)), db.clauses) = P at *
  obtain ⟨w, cs⟩ := P
  dsimp only at h1 h2 h3 h4 h5 ⊢
  constructor
  · exact h1
  · intro l hl cid
    unfold ClauseDatabase.getWatches
    dsimp only
    rw [h5 l hl cid]
    by_cases hcid : cid < db.clauses.length
    · rw [h4 cid hcid]
      cases hC : db.clauses.getD cid none with
      | none => simp [hC]
      | some c =>
        simp only [hC, Option.map_some']
        constructor
        · rintro ⟨-, c2, hc2, hpc⟩
          cases hc2
          exact ⟨_, rfl, hpc⟩
        · rintro ⟨c', hc', hpc⟩
          cases hc'
          exact ⟨hcid, c, rfl, hpc⟩
    · rw [h3 cid (by omega), getD_out_of_range _ _ (by omega)]
      simp [hcid]


/-- C9 (amended): on a fixed variable universe the watch lists are
consistent: `watchConsistent` — `getWatches l` returns exactly the
identifiers of the live clauses whose current watched pair contains
`l` — holds for a fresh database, is preserved by `addClause` (watching
the clause's first two literals), by `updateWatches` (a legal watched-pair
migration), and by `removeClause`, and is (re)established by
`initWatches`.  The original claim's "including new_variable" part is
refuted separately: `addVariable` shifts every negative-literal bucket
and breaks the invariant. -/
theorem getWatches_exact_on_fixed_universe :
    (∀ nv : Nat, watchConsistent (mkClauseDatabase nv)) ∧
    (∀ (db : ClauseDatabase) (clause : List Int) (lrn : Bool),
      watchConsistent db →
      (∀ l ∈ clause.take 2, legalLit db.num_variables l) →
      watchConsistent (db.addClause clause lrn).2) ∧
    (∀ (db : ClauseDatabase) (id : Nat) (old_lit new_lit : Int)
        (c : ClauseInfo), watchConsistent db →
      db.clauses.getD id none = some c →
      legalLit db.num_variables old_lit →
      legalLit db.num_variables new_lit →
      ((c.watched_lits.1 = old_lit ∧ c.watched_lits.2 ≠ old_lit) ∨
       (c.watched_lits.1 ≠ old_lit ∧ c.watched_lits.2 = old_lit)) →
      watchConsistent (db.updateWatches id old_lit new_lit)) ∧
    (∀ (db : ClauseDatabase) (id : Nat), watchConsistent db →
      (∀ c : ClauseInfo, db.clauses.getD id none = some c →
        (c.literals.length ≥ 2 →
          legalLit db.num_variables c.watched_lits.1 ∧
          legalLit db.num_variables c.watched_lits.2) ∧
        (c.literals.length = 1 →
          c.watched_lits = (c.literals.getD 0 0, 0) ∧
          legalLit db.num_variables (c.literals.getD 0 0)) ∧
        (c.literals.length = 0 → c.watched_lits = (0, 0))) →
      watchConsistent (db.removeClause id)) ∧
    (∀ db : ClauseDatabase, db.watches.length = 2 * db.num_variables + 1 →
      (∀ (cid : Nat) (c : ClauseInfo), db.clauses.getD cid none = some c →
        ∀ l ∈ c.literals.take 2, legalLit db.num_variables l) →
      (∀ (cid : Nat) (c : ClauseInfo), db.clauses.getD cid none = some c →
        c.literals = [] → c.watched_lits = (0, 0)) →
      watchConsistent db.initWatches) :=
  ⟨watchConsistent_mk,
   watchConsistent_addClause,
   fun db id o n c hw hc ho hn hp =>
     watchConsistent_updateWatches db id o n c hw hc ho hn hp,
   watchConsistent_removeClause,
   watchConsistent_initWatches⟩

theorem getWatches_exact_on_fixed_universe_witness :
    watchConsistent ((mkClauseDatabase 2).addClause [1, -2] false).2 :=
  getWatches_exact_on_fixed_universe.2.1 (mkClauseDatabase 2) [1, -2] false
    (getWatches_exact_on_fixed_universe.1 2) (by decide)

end CDCL
